import Mathlib

/-!
Verification development for the Crown and Capture rules-and-resolution
engine: a shallow embedding in Lean 4 of the chess-movement rules
(`ChessRules.ts`), the store-level move/turn operations (`gameStore.ts`),
the ability and status-effect system (`AbilitySystem`), and the minimax
opponent (`ChessAI.ts`), together with theorems settling the specified
properties of those operations.

Conventions of the embedding:
* JavaScript numbers holding integral game quantities (coordinates, hit
  points, mana, damage, durations) are modelled as `Int`; the AI's
  evaluation scores, which involve a division (`currentHp / maxHp`),
  are modelled as `Rat`.
* A board `(Piece | null)[][]` is modelled as a function from positions
  to `Option Piece`; out-of-range indexing, which the source always
  guards with `isValidPosition`, reads as `none` through `getCell`.
* The ability system mutates piece objects that are shared between the
  input board and its shallow row-copy.  That aliasing is modelled
  explicitly: a `Grid` stores piece identifiers and a `Heap` maps each
  identifier to the current state of the corresponding piece object.
* The optional callback fields of status effects (`onApply`, `onRemove`,
  `onTurnStart`, `onTurnEnd`) are not data and are omitted; the engine
  never installs them in the shipped ability definitions.
-/

/-- The two sides, `Team.WHITE`/`Team.BLACK` of `game.types.ts`. -/
inductive Team : Type
  | white
  | black
deriving DecidableEq, Repr

/-- Piece kinds, `PieceType` of `game.types.ts`. -/
inductive PieceType : Type
  | pawn
  | knight
  | bishop
  | rook
  | queen
  | king
deriving DecidableEq, Repr

/-- Integer board coordinates, `Position` of `game.types.ts`. -/
structure Position : Type where
  x : Int
  y : Int
deriving DecidableEq, Repr

/-- `isValidPosition` of `game.types.ts`. -/
def isValidPosition (pos : Position) : Bool :=
  0 ≤ pos.x && pos.x < 8 && 0 ≤ pos.y && pos.y < 8

/-- `positionsEqual` of `game.types.ts`. -/
def positionsEqual (pos1 pos2 : Position) : Bool :=
  pos1.x == pos2.x && pos1.y == pos2.y

/-- `PieceStats` of `game.types.ts`; the optional temporary-HP pair is
modelled with `Option Int`. -/
structure PieceStats : Type where
  maxHp : Int
  currentHp : Int
  maxMana : Int
  currentMana : Int
  attackPower : Int
  defense : Int
  speed : Int
  magicPower : Int
  criticalChance : Int
  criticalDamage : Int
  tempHp : Option Int := none
  tempHpTurns : Option Int := none
deriving DecidableEq, Repr

/-- Status-effect kinds, `StatusEffectType` of `abilities.types.ts`. -/
inductive StatusEffectType : Type
  | buff
  | debuff
  | dot
  | hot
deriving DecidableEq, Repr

/-- `StatusEffect` of `abilities.types.ts` (data fields only; the
optional lifecycle callbacks carry no data and are omitted). -/
structure StatusEffect : Type where
  id : String
  name : String
  type : StatusEffectType
  description : String
  duration : Int
  value : Int
  icon : String
  stackable : Bool
deriving DecidableEq, Repr

/-- Target-type enum of `abilities.types.ts`. -/
inductive TargetType : Type
  | selfTarget
  | ally
  | enemy
  | emptySquare
  | anySquare
  | aoe
deriving DecidableEq, Repr

/-- The discriminator of `AbilityEffect.type` in `abilities.types.ts`. -/
inductive EffectKind : Type
  | damage
  | heal
  | buff
  | debuff
  | teleport
  | summon
  | transform
deriving DecidableEq, Repr

/-- `AbilityEffect` of `abilities.types.ts`. -/
structure AbilityEffect : Type where
  type : EffectKind
  value : Option Int := none
  statusEffect : Option StatusEffect := none
  range : Option Int := none
  areaOfEffect : Option Int := none
  duration : Option Int := none
deriving DecidableEq, Repr

/-- `Ability` of `abilities.types.ts` (data fields; the `canTarget` and
`execute` callbacks are constant no-ops in every shipped ability and are
omitted). -/
structure Ability : Type where
  id : String
  name : String
  description : String
  manaCost : Int
  cooldown : Int
  currentCooldown : Option Int := none
  range : Int
  targetType : TargetType
  effects : List AbilityEffect
  icon : String
  levelRequirement : Int
deriving DecidableEq, Repr

/-- `Piece` of `game.types.ts` (the `equipment` record is an inert empty
object in the store and is omitted). -/
structure Piece : Type where
  id : String
  type : PieceType
  team : Team
  position : Position
  stats : PieceStats
  hasMoved : Bool
  isAlive : Bool
  level : Int
  experience : Int
  experienceToNextLevel : Int
  abilities : List Ability
  statusEffects : List StatusEffect
  skillPoints : Int
deriving DecidableEq, Repr

/-- The board `(Piece | null)[][]`: a cell assignment.  Only the 64
in-range positions are observable through `getCell`. -/
def Board : Type := Position → Option Piece

/-- Reading `board[pos.y][pos.x]`; every read in the source is guarded
by `isValidPosition`, and an out-of-range read yields `none`. -/
def getCell (board : Board) (pos : Position) : Option Piece :=
  if isValidPosition pos then board pos else none

/-- Writing `board[pos.y][pos.x] = v`. -/
def setCell (board : Board) (pos : Position) (v : Option Piece) : Board :=
  fun q => if q = pos then v else board q

/-- The board with no pieces. -/
def emptyBoard : Board := fun _ => none

/-- `ChessRules.getPawnMoves`: forward one (and two from the start row)
onto empty squares, diagonal captures onto enemy-occupied squares. -/
def getPawnMoves (piece : Piece) (board : Board) : List Position :=
  let x := piece.position.x
  let y := piece.position.y
  let direction : Int := if piece.team = Team.white then -1 else 1
  let startRow : Int := if piece.team = Team.white then 6 else 1
  let oneForward : Position := ⟨x, y + direction⟩
  let forward : List Position :=
    if isValidPosition oneForward && (getCell board oneForward).isNone then
      [oneForward] ++
        (if y = startRow then
          let twoForward : Position := ⟨x, y + direction * 2⟩
          if isValidPosition twoForward && (getCell board twoForward).isNone then
            [twoForward]
          else []
        else [])
    else []
  let captures : List Position :=
    ([⟨x - 1, y + direction⟩, ⟨x + 1, y + direction⟩] : List Position).filter fun pos =>
      isValidPosition pos &&
        match getCell board pos with
        | some target => target.team != piece.team
        | none => false
  forward ++ captures

/-- The eight knight offsets in the order the source lists them. -/
def knightOffsets : List (Int × Int) :=
  [(2, 1), (2, -1), (-2, 1), (-2, -1), (1, 2), (1, -2), (-1, 2), (-1, -2)]

/-- `ChessRules.getKnightMoves`. -/
def getKnightMoves (piece : Piece) (board : Board) : List Position :=
  (knightOffsets.map fun d =>
      (⟨piece.position.x + d.1, piece.position.y + d.2⟩ : Position)).filter fun pos =>
    isValidPosition pos &&
      match getCell board pos with
      | some target => target.team != piece.team
      | none => true

/-- One sliding direction of `getDiagonalMoves`/`getStraightMoves`: the
loop `for (i = 1; i < 8; i++)`, stopping at the board edge, at an own
piece (excluded), or at an enemy piece (included). -/
def rayLoop (piece : Piece) (board : Board) (dx dy : Int) : Nat → Int → List Position
  | 0, _ => []
  | fuel + 1, i =>
    let pos : Position := ⟨piece.position.x + dx * i, piece.position.y + dy * i⟩
    if isValidPosition pos then
      match getCell board pos with
      | none => pos :: rayLoop piece board dx dy fuel (i + 1)
      | some target => if target.team != piece.team then [pos] else []
    else []

/-- `ChessRules.getDiagonalMoves` (bishop and queen). -/
def getDiagonalMoves (piece : Piece) (board : Board) : List Position :=
  rayLoop piece board 1 1 7 1 ++ rayLoop piece board 1 (-1) 7 1 ++
    rayLoop piece board (-1) 1 7 1 ++ rayLoop piece board (-1) (-1) 7 1

/-- `ChessRules.getStraightMoves` (rook and queen). -/
def getStraightMoves (piece : Piece) (board : Board) : List Position :=
  rayLoop piece board 0 1 7 1 ++ rayLoop piece board 0 (-1) 7 1 ++
    rayLoop piece board 1 0 7 1 ++ rayLoop piece board (-1) 0 7 1

/-- `ChessRules.getBishopMoves`. -/
def getBishopMoves (piece : Piece) (board : Board) : List Position :=
  getDiagonalMoves piece board

/-- `ChessRules.getRookMoves`. -/
def getRookMoves (piece : Piece) (board : Board) : List Position :=
  getStraightMoves piece board

/-- `ChessRules.getQueenMoves`: straight moves then diagonal moves. -/
def getQueenMoves (piece : Piece) (board : Board) : List Position :=
  getStraightMoves piece board ++ getDiagonalMoves piece board

/-- King step offsets in the loop order of the source (`dx` outer from
-1 to 1, `dy` inner, skipping `(0, 0)`). -/
def kingOffsets : List (Int × Int) :=
  [(-1, -1), (-1, 0), (-1, 1), (0, -1), (0, 1), (1, -1), (1, 0), (1, 1)]

/-- `ChessRules.getBasicKingMoves`: one step in any direction, without
castling (used by check detection to avoid recursion). -/
def getBasicKingMoves (piece : Piece) (board : Board) : List Position :=
  (kingOffsets.map fun d =>
      (⟨piece.position.x + d.1, piece.position.y + d.2⟩ : Position)).filter fun pos =>
    isValidPosition pos &&
      match getCell board pos with
      | some target => target.team != piece.team
      | none => true

/-- `ChessRules.getRawValidMoves`: per-type moves (basic king moves for
the king) filtered only for board validity — not for self-check. -/
def getRawValidMoves (piece : Piece) (board : Board) : List Position :=
  (match piece.type with
    | PieceType.pawn => getPawnMoves piece board
    | PieceType.knight => getKnightMoves piece board
    | PieceType.bishop => getBishopMoves piece board
    | PieceType.rook => getRookMoves piece board
    | PieceType.queen => getQueenMoves piece board
    | PieceType.king => getBasicKingMoves piece board).filter fun pos =>
    isValidPosition pos

/-- The king-locating scan of `ChessRules.isKingInCheck`: first cell in
row-major order (`y` outer, `x` inner) holding a king of the team. -/
def findKing (team : Team) (board : Board) : Option Position :=
  (List.range 8).findSome? fun y =>
    (List.range 8).findSome? fun x =>
      match getCell board ⟨(x : Int), (y : Int)⟩ with
      | some piece =>
        if piece.type = PieceType.king ∧ piece.team = team then
          some (⟨(x : Int), (y : Int)⟩ : Position)
        else none
      | none => none

/-- `ChessRules.isKingInCheck`: the team's king square is reachable by
the raw (unfiltered) move set of some living enemy piece; `false` when
no king is found. -/
def isKingInCheck (team : Team) (board : Board) : Bool :=
  match findKing team board with
  | none => false
  | some kingPosition =>
    (List.range 8).any fun y =>
      (List.range 8).any fun x =>
        match getCell board ⟨(x : Int), (y : Int)⟩ with
        | some piece =>
          piece.team != team && piece.isAlive &&
            (getRawValidMoves piece board).any fun m => positionsEqual m kingPosition
        | none => false

/-- `ChessRules.wouldMoveResultInCheck`: simulate the move on a copy
(destination takes the moved piece, origin is cleared — the rook is not
relocated even for a castling destination) and test check. -/
def wouldMoveResultInCheck (piece : Piece) (toPos : Position) (board : Board) : Bool :=
  let boardCopy :=
    setCell (setCell board toPos (some { piece with position := toPos })) piece.position none
  isKingInCheck piece.team boardCopy

/-- The kingside block of `ChessRules.getCastlingMoves`: `(6, y)` when
the `(7, y)` rook is unmoved and friendly, the two in-between squares
are empty, and the two simulated transit placements are safe. -/
def kingsideCastleMoves (king : Piece) (board : Board) : List Position :=
  let y := king.position.y
  match getCell board ⟨7, y⟩ with
  | some rook =>
    if rook.type = PieceType.rook ∧ rook.team = king.team ∧ rook.hasMoved = false then
      if (getCell board ⟨5, y⟩).isNone && (getCell board ⟨6, y⟩).isNone then
        if !(wouldMoveResultInCheck king ⟨5, y⟩ board) &&
            !(wouldMoveResultInCheck king ⟨6, y⟩ board) then
          [⟨6, y⟩]
        else []
      else []
    else []
  | none => []

/-- The queenside block of `ChessRules.getCastlingMoves`: `(2, y)` when
the `(0, y)` rook is unmoved and friendly, the three in-between squares
are empty, and the two simulated transit placements are safe. -/
def queensideCastleMoves (king : Piece) (board : Board) : List Position :=
  let y := king.position.y
  match getCell board ⟨0, y⟩ with
  | some rook =>
    if rook.type = PieceType.rook ∧ rook.team = king.team ∧ rook.hasMoved = false then
      if (getCell board ⟨1, y⟩).isNone && (getCell board ⟨2, y⟩).isNone &&
          (getCell board ⟨3, y⟩).isNone then
        if !(wouldMoveResultInCheck king ⟨3, y⟩ board) &&
            !(wouldMoveResultInCheck king ⟨2, y⟩ board) then
          [⟨2, y⟩]
        else []
      else []
    else []
  | none => []

/-- `ChessRules.getCastlingMoves`: the kingside block followed by the
queenside block. -/
def getCastlingMoves (king : Piece) (board : Board) : List Position :=
  kingsideCastleMoves king board ++ queensideCastleMoves king board

/-- `ChessRules.getKingMoves`: basic steps plus castling when the king
has not moved and is not currently in check. -/
def getKingMoves (piece : Piece) (board : Board) : List Position :=
  getBasicKingMoves piece board ++
    (if piece.hasMoved = false && !(isKingInCheck piece.team board) then
      getCastlingMoves piece board
    else [])

/-- The per-type dispatch of `ChessRules.getValidMoves`. -/
def movesByType (piece : Piece) (board : Board) : List Position :=
  match piece.type with
  | PieceType.pawn => getPawnMoves piece board
  | PieceType.knight => getKnightMoves piece board
  | PieceType.bishop => getBishopMoves piece board
  | PieceType.rook => getRookMoves piece board
  | PieceType.queen => getQueenMoves piece board
  | PieceType.king => getKingMoves piece board

/-- `ChessRules.getValidMoves`: per-type moves filtered for validity
and for not leaving the own king in check. -/
def getValidMoves (piece : Piece) (board : Board) : List Position :=
  (movesByType piece board).filter fun pos =>
    isValidPosition pos && !(wouldMoveResultInCheck piece pos board)

/-- `ChessRules.isMoveValid`. -/
def isMoveValid (piece : Piece) (toPos : Position) (board : Board) : Bool :=
  (getValidMoves piece board).any fun move => positionsEqual move toPos

/-- `ChessRules.isCastlingMove`: a king displacing exactly two files. -/
def isCastlingMove (king : Piece) (toPos : Position) : Bool :=
  king.type == PieceType.king && (toPos.x - king.position.x).natAbs == 2

/-- `ChessRules.executeCastling`: relocate the rook of the chosen side
(the king itself is moved by the caller). -/
def executeCastling (king : Piece) (toPos : Position) (board : Board) : Board :=
  let isKingside := toPos.x > king.position.x
  let rookFromX : Int := if isKingside then 7 else 0
  let rookToX : Int := if isKingside then 5 else 3
  match getCell board ⟨rookFromX, king.position.y⟩ with
  | some rook =>
    setCell
      (setCell board ⟨rookToX, king.position.y⟩
        (some { rook with position := ⟨rookToX, king.position.y⟩, hasMoved := true }))
      ⟨rookFromX, king.position.y⟩ none
  | none => board

/-- The scan shared by `isCheckmate` and `isStalemate`: no living piece
of the team has any legal move. -/
def teamHasNoValidMoves (team : Team) (board : Board) : Bool :=
  (List.range 8).all fun y =>
    (List.range 8).all fun x =>
      match getCell board ⟨(x : Int), (y : Int)⟩ with
      | some piece =>
        if piece.team = team ∧ piece.isAlive then (getValidMoves piece board).isEmpty
        else true
      | none => true

/-- `ChessRules.isCheckmate`: in check and without any legal move. -/
def isCheckmate (team : Team) (board : Board) : Bool :=
  isKingInCheck team board && teamHasNoValidMoves team board

/-- `ChessRules.isStalemate`: not in check and without any legal move. -/
def isStalemate (team : Team) (board : Board) : Bool :=
  !(isKingInCheck team board) && teamHasNoValidMoves team board

/-- Display name of a piece type, as interpolated into the messages of
the source (the enum values are lowercase strings). -/
def pieceTypeName : PieceType → String
  | PieceType.pawn => "pawn"
  | PieceType.knight => "knight"
  | PieceType.bishop => "bishop"
  | PieceType.rook => "rook"
  | PieceType.queen => "queen"
  | PieceType.king => "king"

/-- The outcome of the store action `movePiece` of `gameStore.ts`,
restricted to its board-and-record effect: the resulting board, the
final state of the attacked piece object (if any), the damage recorded
on the move, and whether the move was performed at all. -/
structure MoveOutcome : Type where
  board : Board
  defender : Option Piece
  damage : Option Int
  moved : Bool

/-- The capture branch of `movePiece`: the defender object after the
attack.  Damage is `attackPower`; at `hp ≤ 0` the piece is only marked
dead (its `currentHp` is left as it was), otherwise its `currentHp` is
reduced. -/
def movePieceDefender (attacker defender : Piece) : Piece :=
  let damage := attacker.stats.attackPower
  let newHp := defender.stats.currentHp - damage
  if newHp ≤ 0 then { defender with isAlive := false }
  else { defender with stats := { defender.stats with currentHp := newHp } }

/-- The store action `movePiece from to` of `gameStore.ts`: no-op
unless a piece stands at `from` and the move is valid; otherwise
relocate the rook for a castling move, resolve the capture, and place
the moved piece on the destination (overwriting its occupant) while
clearing the origin.  The defender's cell is written before the moved
piece in the source, so the destination cell always ends up holding the
attacker; the defender object's final state is returned separately. -/
def movePiece (board : Board) (fromPos toPos : Position) : MoveOutcome :=
  match getCell board fromPos with
  | none => { board := board, defender := none, damage := none, moved := false }
  | some piece =>
    if isMoveValid piece toPos board then
      let b1 := if isCastlingMove piece toPos then executeCastling piece toPos board else board
      let targetPiece := getCell board toPos
      let defenderFinal := targetPiece.map fun t => movePieceDefender piece t
      let damage := targetPiece.map fun _ => piece.stats.attackPower
      let movedPiece := { piece with position := toPos, hasMoved := true }
      let b2 := setCell (setCell b1 toPos (some movedPiece)) fromPos none
      { board := b2, defender := defenderFinal, damage := damage, moved := true }
    else { board := board, defender := none, damage := none, moved := false }

/-- The mana-regeneration pass of `endTurn`: 10 mana, clamped to
`maxMana`, for living pieces of the team whose turn begins. -/
def regenPiece (newTurn : Team) (piece : Piece) : Piece :=
  if piece.team = newTurn ∧ piece.isAlive = true then
    { piece with stats :=
      { piece.stats with
        currentMana := min piece.stats.maxMana (piece.stats.currentMana + 10) } }
  else piece

/-- The temporary-HP pass of `endTurn`: decrement a positive counter,
clearing the temporary HP when it expires. -/
def tickTempHp (piece : Piece) : Piece :=
  match piece.stats.tempHpTurns with
  | some t =>
    if t > 0 then
      let newTempHpTurns := t - 1
      if newTempHpTurns ≤ 0 then
        { piece with stats := { piece.stats with tempHp := none, tempHpTurns := none } }
      else
        { piece with stats := { piece.stats with tempHpTurns := some newTempHpTurns } }
    else piece
  | none => piece

/-- The board effect of the store action `endTurn` of `gameStore.ts`:
regenerate mana for the team whose turn begins, then tick the
temporary-HP counters of every piece.  Status effects and ability
cooldowns are not touched by this action. -/
def endTurnBoard (currentTurn : Team) (board : Board) : Board :=
  let newTurn := if currentTurn = Team.white then Team.black else Team.white
  fun pos => ((board pos).map (regenPiece newTurn)).map tickTempHp

/-- `AbilitySystem.canUseAbility`: alive, enough mana, cooldown not
positive, level requirement met; the `Bool` is the `canUse` field and
the `Option String` the `reason`. -/
def canUseAbility (piece : Piece) (ability : Ability) : Bool × Option String :=
  if piece.isAlive = false then (false, some "Piece is not alive")
  else if piece.stats.currentMana < ability.manaCost then (false, some "Not enough mana")
  else if (ability.currentCooldown.getD 0) > 0 then (false, some "Ability is on cooldown")
  else if piece.level < ability.levelRequirement then (false, some "Level requirement not met")
  else (true, none)

/-- `AbilitySystem.getDistance`: Chebyshev distance. -/
def getDistance (pos1 pos2 : Position) : Int :=
  max (pos1.x - pos2.x).natAbs (pos1.y - pos2.y).natAbs

/-- `AbilitySystem.isValidTarget`. -/
def isValidTarget (caster : Piece) (ability : Ability) (targetPos : Position)
    (board : Board) : Bool :=
  if !(isValidPosition targetPos) then false
  else if getDistance caster.position targetPos > ability.range then false
  else
    let targetPiece := getCell board targetPos
    match ability.targetType with
    | TargetType.selfTarget => positionsEqual caster.position targetPos
    | TargetType.ally =>
      match targetPiece with
      | some t => t.team == caster.team && t.isAlive
      | none => false
    | TargetType.enemy =>
      match targetPiece with
      | some t => t.team != caster.team && t.isAlive
      | none => false
    | TargetType.emptySquare => targetPiece.isNone
    | TargetType.anySquare => true
    | TargetType.aoe => true

/-- `AbilitySystem.getValidTargets`: the 64-square scan. -/
def getValidTargets (caster : Piece) (ability : Ability) (board : Board) : List Position :=
  (List.range 8).flatMap fun y =>
    (List.range 8).filterMap fun x =>
      if isValidTarget caster ability ⟨(x : Int), (y : Int)⟩ board then
        some (⟨(x : Int), (y : Int)⟩ : Position)
      else none

/-- The heap of piece objects: JavaScript object identity is modelled
by the piece id, and the current state of each object is read through
this map. -/
def Heap : Type := String → Piece

/-- The cell layer of a board in the aliasing-aware model: cells hold
references (ids) to piece objects. -/
def Grid : Type := Position → Option String

/-- Reading a cell of the reference grid (out of range reads `none`). -/
def gridGet (grid : Grid) (pos : Position) : Option String :=
  if isValidPosition pos then grid pos else none

/-- Writing a cell of the reference grid. -/
def gridSet (grid : Grid) (pos : Position) (v : Option String) : Grid :=
  fun q => if q = pos then v else grid q

/-- Updating one piece object in place. -/
def updateHeap (heap : Heap) (id : String) (f : Piece → Piece) : Heap :=
  fun j => if j = id then f (heap j) else heap j

/-- What a caller holding a board sees at a position: the cell's
reference resolved through the current object states. -/
def observeCell (grid : Grid) (heap : Heap) (pos : Position) : Option Piece :=
  (gridGet grid pos).map heap

/-- The accumulating state threaded through effect application inside
`AbilitySystem.executeAbility`. -/
structure EffectState : Type where
  grid : Grid
  heap : Heap
  messages : List String
  affected : List String

/-- The offsets `-radius, ..., radius` of the AOE double loop. -/
def aoeOffsets (radius : Int) : List Int :=
  (List.range (2 * radius + 1).toNat).map fun k => -radius + (k : Int)

/-- `AbilitySystem.getAOETargets`: occupants of the square block of
Chebyshev radius `radius` around the centre, `dy` outer and `dx` inner. -/
def getAOETargets (centerPos : Position) (radius : Int) (grid : Grid) : List String :=
  (aoeOffsets radius).flatMap fun dy =>
    (aoeOffsets radius).filterMap fun dx =>
      gridGet grid ⟨centerPos.x + dx, centerPos.y + dy⟩

/-- The target selection shared by the damage/heal/status effects:
the AOE block when `areaOfEffect` is set and non-zero (zero is falsy in
the source), else the single occupant of the target square. -/
def effectTargets (effect : AbilityEffect) (targetPos : Position) (grid : Grid) :
    List String :=
  match effect.areaOfEffect with
  | some radius =>
    if radius = 0 then (gridGet grid targetPos).toList
    else getAOETargets targetPos radius grid
  | none => (gridGet grid targetPos).toList

/-- One target of `AbilitySystem.executeDamageEffect`: skip allies of
the caster; otherwise deal `max 1 (value - defense)` (floored at 0 hp),
and on death mark the object dead and clear the cell recorded in its
`position` field. -/
def applyDamageToTarget (casterId : String) (effect : AbilityEffect)
    (st : EffectState) (targetId : String) : EffectState :=
  let caster := st.heap casterId
  let target := st.heap targetId
  if target.team = caster.team then st
  else
    let damage := effect.value.getD 0
    let actualDamage := max 1 (damage - target.stats.defense)
    let newHp := max 0 (target.stats.currentHp - actualDamage)
    let heap1 := updateHeap st.heap targetId fun t =>
      { t with stats := { t.stats with currentHp := newHp } }
    if newHp ≤ 0 then
      let heap2 := updateHeap heap1 targetId fun t => { t with isAlive := false }
      { grid := gridSet st.grid (heap2 targetId).position none
        heap := heap2
        messages := st.messages ++ [pieceTypeName target.type ++ " was defeated!"]
        affected := st.affected ++ [targetId] }
    else
      { st with
        heap := heap1
        messages := st.messages ++
          [pieceTypeName target.type ++ " took " ++ toString actualDamage ++ " damage!"]
        affected := st.affected ++ [targetId] }

/-- One target of `AbilitySystem.executeHealEffect`: skip enemies of
the caster; otherwise heal by `value` clamped to `maxHp`, reporting
only a strictly positive actual heal. -/
def applyHealToTarget (casterId : String) (effect : AbilityEffect)
    (st : EffectState) (targetId : String) : EffectState :=
  let caster := st.heap casterId
  let target := st.heap targetId
  if target.team ≠ caster.team then st
  else
    let healAmount := effect.value.getD 0
    let oldHp := target.stats.currentHp
    let newHp := min target.stats.maxHp (target.stats.currentHp + healAmount)
    let heap1 := updateHeap st.heap targetId fun t =>
      { t with stats := { t.stats with currentHp := newHp } }
    let actualHeal := newHp - oldHp
    if actualHeal > 0 then
      { st with
        heap := heap1
        messages := st.messages ++
          [pieceTypeName target.type ++ " recovered " ++ toString actualHeal ++ " HP!"]
        affected := st.affected ++ [targetId] }
    else { st with heap := heap1 }

/-- One target of `AbilitySystem.executeStatusEffect`: buffs apply only
to allies and debuffs only to enemies; a non-stackable status first
removes the existing instances with its id. -/
def applyStatusToTarget (casterId : String) (effect : AbilityEffect)
    (st : EffectState) (targetId : String) : EffectState :=
  let caster := st.heap casterId
  let target := st.heap targetId
  let isBuffForAlly := effect.type = EffectKind.buff ∧ target.team = caster.team
  let isDebuffForEnemy := effect.type = EffectKind.debuff ∧ target.team ≠ caster.team
  if isBuffForAlly ∨ isDebuffForEnemy then
    match effect.statusEffect with
    | some se =>
      let heap1 := updateHeap st.heap targetId fun t =>
        { t with statusEffects :=
          (if se.stackable = false then t.statusEffects.filter fun e => e.id ≠ se.id
            else t.statusEffects) ++ [se] }
      { st with
        heap := heap1
        messages := st.messages ++
          [pieceTypeName target.type ++ " is affected by " ++ se.name ++ "!"]
        affected := st.affected ++ [targetId] }
    | none => st
  else st

/-- `AbilitySystem.executeTeleportEffect`: clear the caster's current
cell, update the caster object's position, and write its reference into
the target cell. -/
def applyTeleportEffect (casterId : String) (targetPos : Position)
    (st : EffectState) : EffectState :=
  let caster := st.heap casterId
  let grid1 := gridSet st.grid caster.position none
  let heap1 := updateHeap st.heap casterId fun c => { c with position := targetPos }
  let grid2 := gridSet grid1 targetPos (some casterId)
  { grid := grid2
    heap := heap1
    messages := st.messages ++ [pieceTypeName caster.type ++ " teleported!"]
    affected := st.affected ++ [casterId] }

/-- The `switch (effect.type)` of `executeAbility`; the `summon` and
`transform` discriminants have no case in the source and are no-ops. -/
def execEffect (casterId : String) (targetPos : Position)
    (st : EffectState) (effect : AbilityEffect) : EffectState :=
  match effect.type with
  | EffectKind.damage =>
    (effectTargets effect targetPos st.grid).foldl (applyDamageToTarget casterId effect) st
  | EffectKind.heal =>
    (effectTargets effect targetPos st.grid).foldl (applyHealToTarget casterId effect) st
  | EffectKind.buff =>
    (effectTargets effect targetPos st.grid).foldl (applyStatusToTarget casterId effect) st
  | EffectKind.debuff =>
    (effectTargets effect targetPos st.grid).foldl (applyStatusToTarget casterId effect) st
  | EffectKind.teleport => applyTeleportEffect casterId targetPos st
  | EffectKind.summon => st
  | EffectKind.transform => st

/-- The result record of `AbilitySystem.executeAbility`; `ability`
carries the final state of the (shared, mutable) ability object, and
`heap` the final state of every piece object — including those still
referenced by the caller's input board. -/
structure AbilityResult : Type where
  success : Bool
  grid : Grid
  heap : Heap
  ability : Ability
  messages : List String
  affected : List String

/-- `AbilitySystem.executeAbility`: fail fast (before any mutation)
when `canUseAbility` refuses; otherwise deduct mana from the caster
object, set the ability's cooldown, and fold the effects over the
row-copied grid and the shared piece objects. -/
def executeAbility (casterId : String) (ability : Ability) (targetPos : Position)
    (grid : Grid) (heap : Heap) : AbilityResult :=
  let caster := heap casterId
  let check := canUseAbility caster ability
  if check.1 = false then
    { success := false
      grid := grid
      heap := heap
      ability := ability
      messages := [check.2.getD "Cannot use ability"]
      affected := [] }
  else
    let heap1 := updateHeap heap casterId fun c =>
      { c with stats := { c.stats with currentMana := c.stats.currentMana - ability.manaCost } }
    let ability1 := { ability with currentCooldown := some ability.cooldown }
    let st0 : EffectState := { grid := grid, heap := heap1, messages := [], affected := [] }
    let st := ability.effects.foldl (execEffect casterId targetPos) st0
    { success := true
      grid := st.grid
      heap := st.heap
      ability := ability1
      messages := (pieceTypeName caster.type ++ " used " ++ ability.name ++ "!") :: st.messages
      affected := st.affected }

/-- The state threaded through the effect list of
`AbilitySystem.processStatusEffects`. -/
structure StatusTickState : Type where
  stats : PieceStats
  isAlive : Bool
  kept : List StatusEffect
  messages : List String

/-- One status effect of `processStatusEffects`: apply damage over time
(clamped at 0, possibly killing) or heal over time (clamped at `maxHp`),
decrement the duration, and keep the effect only while the decremented
duration is positive, emitting a worn-off message otherwise. -/
def statusTickStep (ptype : PieceType) (st : StatusTickState)
    (effect : StatusEffect) : StatusTickState :=
  let st1 :=
    if effect.type = StatusEffectType.dot then
      let newHp := max 0 (st.stats.currentHp - effect.value)
      let msgs := st.messages ++
        [pieceTypeName ptype ++ " takes " ++ toString effect.value ++
          " damage from " ++ effect.name ++ "!"]
      if newHp ≤ 0 then
        { st with
          stats := { st.stats with currentHp := newHp }
          isAlive := false
          messages := msgs ++
            [pieceTypeName ptype ++ " was defeated by " ++ effect.name ++ "!"] }
      else { st with stats := { st.stats with currentHp := newHp }, messages := msgs }
    else if effect.type = StatusEffectType.hot then
      let oldHp := st.stats.currentHp
      let newHp := min st.stats.maxHp (st.stats.currentHp + effect.value)
      let healed := newHp - oldHp
      { st with
        stats := { st.stats with currentHp := newHp }
        messages := st.messages ++
          (if healed > 0 then
            [pieceTypeName ptype ++ " recovers " ++ toString healed ++
              " HP from " ++ effect.name ++ "!"]
          else []) }
    else st
  let newDuration := effect.duration - 1
  if newDuration ≤ 0 then
    { st1 with messages := st1.messages ++
        [effect.name ++ " has worn off from " ++ pieceTypeName ptype ++ "!"] }
  else
    { st1 with kept := st1.kept ++ [{ effect with duration := newDuration }] }

/-- `AbilitySystem.processStatusEffects` on a piece value: the piece
after the tick together with the emitted messages.  No caller in the
repository invokes this function. -/
def processStatusEffects (piece : Piece) : Piece × List String :=
  let final := piece.statusEffects.foldl (statusTickStep piece.type)
    { stats := piece.stats, isAlive := piece.isAlive, kept := [], messages := [] }
  ({ piece with stats := final.stats, isAlive := final.isAlive, statusEffects := final.kept },
    final.messages)

/-- The opposite side (`this.team === WHITE ? BLACK : WHITE`). -/
def otherTeam : Team → Team
  | Team.white => Team.black
  | Team.black => Team.white

/-- The `AIMove` record of `ChessAI.ts` (`from`/`to` are reserved words
in Lean and are rendered `fromPos`/`toPos`). -/
structure AIMove : Type where
  fromPos : Position
  toPos : Position
  score : Rat
  piece : Piece
deriving DecidableEq, Repr

/-- The `BoardEvaluation` record of `ChessAI.ts`. -/
structure BoardEvaluation : Type where
  score : Rat
  isGameOver : Bool
  winner : Option Team
deriving DecidableEq, Repr

/-- The AI configuration: difficulty doubles as maximum search depth. -/
structure ChessAI : Type where
  difficulty : Nat
  team : Team
deriving DecidableEq, Repr

/-- `ChessAI.PIECE_VALUES`. -/
def pieceValues : PieceType → Rat
  | PieceType.pawn => 100
  | PieceType.knight => 320
  | PieceType.bishop => 330
  | PieceType.rook => 500
  | PieceType.queen => 900
  | PieceType.king => 20000

/-- `ChessAI.POSITION_BONUSES[PAWN]`. -/
def pawnBonusTable : List (List Rat) :=
  [[0, 0, 0, 0, 0, 0, 0, 0],
   [50, 50, 50, 50, 50, 50, 50, 50],
   [10, 10, 20, 30, 30, 20, 10, 10],
   [5, 5, 10, 25, 25, 10, 5, 5],
   [0, 0, 0, 20, 20, 0, 0, 0],
   [5, -5, -10, 0, 0, -10, -5, 5],
   [5, 10, 10, -20, -20, 10, 10, 5],
   [0, 0, 0, 0, 0, 0, 0, 0]]

/-- `ChessAI.POSITION_BONUSES[KNIGHT]`. -/
def knightBonusTable : List (List Rat) :=
  [[-50, -40, -30, -30, -30, -30, -40, -50],
   [-40, -20, 0, 0, 0, 0, -20, -40],
   [-30, 0, 10, 15, 15, 10, 0, -30],
   [-30, 5, 15, 20, 20, 15, 5, -30],
   [-30, 0, 15, 20, 20, 15, 0, -30],
   [-30, 5, 10, 15, 15, 10, 5, -30],
   [-40, -20, 0, 5, 5, 0, -20, -40],
   [-50, -40, -30, -30, -30, -30, -40, -50]]

/-- `ChessAI.getPositionBonus`: table lookup with the row mirrored for
white, defaulting to 0 for piece types without a table. -/
def getPositionBonus (piece : Piece) (x y : Nat) : Rat :=
  let table : Option (List (List Rat)) :=
    match piece.type with
    | PieceType.pawn => some pawnBonusTable
    | PieceType.knight => some knightBonusTable
    | _ => none
  match table with
  | none => 0
  | some t =>
    let adjustedY : Nat := if piece.team = Team.white then 7 - y else y
    (t.getD adjustedY []).getD x 0

/-- The 64 cells in the row-major order of the evaluation loops. -/
def boardCells : List (Nat × Nat) :=
  (List.range 8).flatMap fun y => (List.range 8).map fun x => (x, y)

/-- Accumulator of the material/position scan of `evaluateBoard`. -/
structure MaterialAcc : Type where
  score : Rat
  whiteKing : Bool
  blackKing : Bool

/-- The material, position-bonus and RPG-stat scan of
`ChessAI.evaluateBoard`, also recording which kings are present. -/
def materialEval (board : Board) : MaterialAcc :=
  boardCells.foldl
    (fun acc c =>
      match getCell board ⟨(c.1 : Int), (c.2 : Int)⟩ with
      | some piece =>
        if piece.isAlive = true then
          let pieceValue := pieceValues piece.type
          let positionBonus := getPositionBonus piece c.1 c.2
          let totalValue := pieceValue + positionBonus
          let hpRatio : Rat := (piece.stats.currentHp : Rat) / (piece.stats.maxHp : Rat)
          let statBonus : Rat :=
            ((piece.stats.attackPower + piece.stats.defense : Int) : Rat) * hpRatio
          match piece.team with
          | Team.white =>
            { acc with
              score := acc.score + totalValue + statBonus
              whiteKing := acc.whiteKing || piece.type == PieceType.king }
          | Team.black =>
            { acc with
              score := acc.score - totalValue - statBonus
              blackKing := acc.blackKing || piece.type == PieceType.king }
        else acc
      | none => acc)
    { score := 0, whiteKing := false, blackKing := false }

/-- `ChessAI.evaluateKingSafety`. -/
def evaluateKingSafety (ai : ChessAI) (board : Board) : Rat :=
  boardCells.foldl
    (fun s c =>
      match getCell board ⟨(c.1 : Int), (c.2 : Int)⟩ with
      | some piece =>
        if piece.type = PieceType.king then
          let safetyScore : Rat := if isKingInCheck piece.team board then -50 else 10
          if piece.team = ai.team then s + safetyScore else s - safetyScore
        else s
      | none => s)
    0

/-- The per-file pawn count of `evaluatePawnStructure`. -/
def pawnsInFile (team : Team) (board : Board) (x : Nat) : Nat :=
  ((List.range 8).filter fun y =>
    match getCell board ⟨(x : Int), (y : Int)⟩ with
    | some p => p.type == PieceType.pawn && p.team == team
    | none => false).length

/-- `ChessAI.evaluatePawnStructure`: doubled-pawn penalties, signed
from the AI's perspective. -/
def evaluatePawnStructure (ai : ChessAI) (board : Board) : Rat :=
  let score := (List.range 8).foldl
    (fun s x =>
      let wc := pawnsInFile Team.white board x
      let bc := pawnsInFile Team.black board x
      let s1 := if wc > 1 then s - 10 * ((wc : Rat) - 1) else s
      if bc > 1 then s1 + 10 * ((bc : Rat) - 1) else s1)
    0
  if ai.team = Team.white then score else -score

/-- `ChessAI.getAllPossibleMoves`: every legal move of every living
piece of the team (defaulting to the AI's own team). -/
def getAllPossibleMoves (ai : ChessAI) (board : Board) (team : Option Team) : List AIMove :=
  let targetTeam := team.getD ai.team
  (List.range 8).flatMap fun y =>
    (List.range 8).flatMap fun x =>
      match getCell board ⟨(x : Int), (y : Int)⟩ with
      | some piece =>
        if piece.team = targetTeam ∧ piece.isAlive = true then
          (getValidMoves piece board).map fun toP =>
            { fromPos := piece.position, toPos := toP, score := 0, piece := piece }
        else []
      | none => []

/-- `ChessAI.evaluateControl`: the mobility difference, signed from the
AI's perspective. -/
def evaluateControl (ai : ChessAI) (board : Board) : Rat :=
  let whiteMoves := (getAllPossibleMoves ai board (some Team.white)).length
  let blackMoves := (getAllPossibleMoves ai board (some Team.black)).length
  let mobilityScore : Rat := (((whiteMoves : Int) - (blackMoves : Int) : Int) : Rat) * 2
  if ai.team = Team.white then mobilityScore else -mobilityScore

/-- `ChessAI.makeMove`: apply a candidate move to a copy of the board
(castling included), marking the moved piece. -/
def makeMove (board : Board) (move : AIMove) : Board :=
  match getCell board move.fromPos with
  | some piece =>
    let b1 := if isCastlingMove piece move.toPos then executeCastling piece move.toPos board
      else board
    setCell
      (setCell b1 move.toPos (some { piece with position := move.toPos, hasMoved := true }))
      move.fromPos none
  | none => board

/-- `ChessAI.evaluateBoard`: material/positional scan, terminal
checkmate/stalemate adjustments, perspective flip for a black AI, and
the king-safety, pawn-structure and mobility terms. -/
def evaluateBoard (ai : ChessAI) (board : Board) : BoardEvaluation :=
  let acc := materialEval board
  let step :=
    if acc.whiteKing = false then (acc.score, true, some Team.black)
    else if acc.blackKing = false then (acc.score, true, some Team.white)
    else if isCheckmate Team.white board then (acc.score - 50000, true, some Team.black)
    else if isCheckmate Team.black board then (acc.score + 50000, true, some Team.white)
    else if isStalemate Team.white board || isStalemate Team.black board then
      ((0 : Rat), true, none)
    else (acc.score, false, none)
  let flipped : Rat := if ai.team = Team.black then -step.1 else step.1
  let score := flipped + evaluateKingSafety ai board + evaluatePawnStructure ai board +
    evaluateControl ai board
  { score := score, isGameOver := step.2.1, winner := step.2.2 }

/-- Extended score line for the `±Infinity` bounds of the alpha-beta
search; all evaluation scores are finite. -/
inductive XNum : Type
  | negInf
  | fin (val : Rat)
  | posInf
deriving DecidableEq, Repr

/-- Strict comparison on the extended score line. -/
def XNum.ltb : XNum → XNum → Bool
  | XNum.negInf, XNum.negInf => false
  | XNum.negInf, _ => true
  | XNum.fin _, XNum.negInf => false
  | XNum.fin a, XNum.fin b => a < b
  | XNum.fin _, XNum.posInf => true
  | XNum.posInf, _ => false

/-- Non-strict comparison on the extended score line. -/
def XNum.leb (a b : XNum) : Bool := !(XNum.ltb b a)

/-- `Math.max` on the extended score line. -/
def XNum.maxx (a b : XNum) : XNum := if XNum.ltb a b then b else a

/-- `Math.min` on the extended score line. -/
def XNum.minn (a b : XNum) : XNum := if XNum.ltb b a then b else a

mutual

/-- `ChessAI.minimax`: returns `null` at depth 0 and when no moves are
available; otherwise delegates to the maximizing or minimizing loop
over the candidate moves. -/
def minimax (ai : ChessAI) (board : Board) (depth : Nat) (alpha beta : XNum)
    (maximizing : Bool) : Option AIMove :=
  match depth with
  | 0 => none
  | d + 1 =>
    let currentTeam := if maximizing then ai.team else otherTeam ai.team
    let moves := getAllPossibleMoves ai board (some currentTeam)
    if moves.isEmpty then none
    else if maximizing then maxLoop ai board d beta moves alpha XNum.negInf none
    else minLoop ai board d alpha moves beta XNum.posInf none
termination_by (depth, 1, 0)

/-- The maximizing loop of `minimax`.  As in the source, the recursive
call's result (`childMove`) is computed and then discarded: the score
credited to each move is the static evaluation of the board immediately
after it, and alpha is raised with that static score. -/
def maxLoop (ai : ChessAI) (board : Board) (d : Nat) (beta : XNum)
    (moves : List AIMove) (alpha maxScore : XNum) (best : Option AIMove) : Option AIMove :=
  match moves with
  | [] => best
  | move :: rest =>
    let newBoard := makeMove board move
    let childMove := minimax ai newBoard d alpha beta false
    let score := (evaluateBoard ai newBoard).score
    let best1 := if XNum.ltb maxScore (XNum.fin score) then some { move with score := score }
      else best
    let maxScore1 := if XNum.ltb maxScore (XNum.fin score) then XNum.fin score else maxScore
    let alpha1 := XNum.maxx alpha (XNum.fin score)
    if XNum.leb beta alpha1 then best1
    else maxLoop ai board d beta rest alpha1 maxScore1 best1
termination_by (d + 1, 0, moves.length)

/-- The minimizing loop of `minimax`, symmetric to `maxLoop` (the
recursive result is likewise discarded). -/
def minLoop (ai : ChessAI) (board : Board) (d : Nat) (alpha : XNum)
    (moves : List AIMove) (beta minScore : XNum) (best : Option AIMove) : Option AIMove :=
  match moves with
  | [] => best
  | move :: rest =>
    let newBoard := makeMove board move
    let childMove := minimax ai newBoard d alpha beta true
    let score := (evaluateBoard ai newBoard).score
    let best1 := if XNum.ltb (XNum.fin score) minScore then some { move with score := score }
      else best
    let minScore1 := if XNum.ltb (XNum.fin score) minScore then XNum.fin score else minScore
    let beta1 := XNum.minn beta (XNum.fin score)
    if XNum.leb beta1 alpha then best1
    else minLoop ai board d alpha rest beta1 minScore1 best1
termination_by (d + 1, 0, moves.length)

end

/-- `DEFAULT_PIECE_STATS[PAWN]` with current values at their maxima, as
`createPiece` initialises them. -/
def pawnStats : PieceStats :=
  { maxHp := 50, currentHp := 50, maxMana := 100, currentMana := 100, attackPower := 20,
    defense := 5, speed := 3, magicPower := 5, criticalChance := 5, criticalDamage := 50 }

/-- `DEFAULT_PIECE_STATS[KNIGHT]` with current values at their maxima. -/
def knightStats : PieceStats :=
  { maxHp := 75, currentHp := 75, maxMana := 100, currentMana := 100, attackPower := 30,
    defense := 8, speed := 6, magicPower := 8, criticalChance := 15, criticalDamage := 75 }

/-- `DEFAULT_PIECE_STATS[BISHOP]` with current values at their maxima. -/
def bishopStats : PieceStats :=
  { maxHp := 70, currentHp := 70, maxMana := 100, currentMana := 100, attackPower := 25,
    defense := 6, speed := 4, magicPower := 20, criticalChance := 10, criticalDamage := 60 }

/-- `DEFAULT_PIECE_STATS[ROOK]` with current values at their maxima. -/
def rookStats : PieceStats :=
  { maxHp := 100, currentHp := 100, maxMana := 100, currentMana := 100, attackPower := 35,
    defense := 12, speed := 2, magicPower := 5, criticalChance := 8, criticalDamage := 80 }

/-- `DEFAULT_PIECE_STATS[QUEEN]` with current values at their maxima. -/
def queenStats : PieceStats :=
  { maxHp := 120, currentHp := 120, maxMana := 100, currentMana := 100, attackPower := 40,
    defense := 10, speed := 5, magicPower := 25, criticalChance := 20, criticalDamage := 90 }

/-- `DEFAULT_PIECE_STATS[KING]` with current values at their maxima. -/
def kingStats : PieceStats :=
  { maxHp := 150, currentHp := 150, maxMana := 100, currentMana := 100, attackPower := 30,
    defense := 15, speed := 3, magicPower := 15, criticalChance := 12, criticalDamage := 70 }

/-- A piece as `createPiece` builds it (level 1, alive, no status
effects); the ability list is supplied by the caller. -/
def mkPiece (id : String) (t : PieceType) (team : Team) (pos : Position)
    (stats : PieceStats) (hasMoved : Bool) (abilities : List Ability) : Piece :=
  { id := id, type := t, team := team, position := pos, stats := stats,
    hasMoved := hasMoved, isAlive := true, level := 1, experience := 0,
    experienceToNextLevel := 100, abilities := abilities, statusEffects := [],
    skillPoints := 0 }

/-- The `shield_wall` status payload of the pawn's Shield Wall ability
(`PIECE_ABILITIES[PAWN][0]`). -/
def shieldWallStatus : StatusEffect :=
  { id := "shield_wall", name := "Shield Wall", type := StatusEffectType.buff,
    description := "+2 Defense, immunity to ranged attacks", duration := 3, value := 2,
    icon := "shield", stackable := false }

/-- `PIECE_ABILITIES[PAWN][0]` (Shield Wall): a Self-target buff with
mana cost 20. -/
def pawnCharge : Ability :=
  { id := "pawn_charge", name := "Shield Wall",
    description := "Gain +2 Defense and immunity to ranged attacks for 3 turns",
    manaCost := 20, cooldown := 5, range := 0, targetType := TargetType.selfTarget,
    effects := [{ type := EffectKind.buff, statusEffect := some shieldWallStatus }],
    icon := "shield", levelRequirement := 1 }

/-- `PIECE_ABILITIES[BISHOP][1]` (Holy Smite): a single-target enemy
damage ability, value 60, mana cost 45, level requirement 4. -/
def bishopSmite : Ability :=
  { id := "bishop_smite", name := "Holy Smite",
    description := "Deal 60 magic damage to target enemy, ignoring armor",
    manaCost := 45, cooldown := 5, range := 8, targetType := TargetType.enemy,
    effects := [{ type := EffectKind.damage, value := some 60 }],
    icon := "bolt", levelRequirement := 4 }

/-- The white queen of the capture scenario of §8 of the spec. -/
def captureQueen : Piece :=
  mkPiece "white-queen" PieceType.queen Team.white ⟨0, 0⟩ queenStats true []

/-- The black pawn of the capture scenario (defense 5, 50 hp). -/
def capturePawn : Piece :=
  mkPiece "black-pawn" PieceType.pawn Team.black ⟨0, 1⟩ pawnStats true []

/-- The two-piece board of the capture scenario: the queen attacks the
pawn one square down its file. -/
def captureBoard : Board :=
  setCell (setCell emptyBoard ⟨0, 0⟩ (some captureQueen)) ⟨0, 1⟩ (some capturePawn)

/-- The ids present on a board, in row-major cell order. -/
def occupiedIds (board : Board) : List String :=
  (List.range 8).flatMap fun y =>
    (List.range 8).filterMap fun x =>
      (getCell board ⟨(x : Int), (y : Int)⟩).map fun p => p.id

/-- The scan-first white king of the castling counterexample board
(row 0 is scanned before row 3 by `findKing`). -/
def cKingA : Piece := mkPiece "white-king-a" PieceType.king Team.white ⟨7, 0⟩ kingStats true []

/-- The castling white king of the counterexample board (unmoved, off
the home rank). -/
def cKingB : Piece := mkPiece "white-king-b" PieceType.king Team.white ⟨4, 3⟩ kingStats false []

/-- The unmoved white rook completing the castling conditions on rank 3. -/
def cRookW : Piece := mkPiece "white-rook" PieceType.rook Team.white ⟨7, 3⟩ rookStats false []

/-- The black rook whose file attack is blocked by the white rook until
castling relocates it. -/
def cRookB : Piece := mkPiece "black-rook" PieceType.rook Team.black ⟨7, 6⟩ rookStats true []

/-- A board with two white kings on which the castling simulation (which
does not relocate the rook) misjudges the applied position: after the
kingside castling at rank 3, the black rook's file attack reaches the
scan-first white king at `(7, 0)`. -/
def castleTrapBoard : Board :=
  setCell (setCell (setCell (setCell emptyBoard ⟨7, 0⟩ (some cKingA)) ⟨4, 3⟩ (some cKingB))
    ⟨7, 3⟩ (some cRookW)) ⟨7, 6⟩ (some cRookB)

/-- The white king of the well-formed castling witness board. -/
def wKingOk : Piece := mkPiece "white-king" PieceType.king Team.white ⟨4, 7⟩ kingStats false []

/-- The white kingside rook of the castling witness board. -/
def wRookOk : Piece := mkPiece "white-rook-h" PieceType.rook Team.white ⟨7, 7⟩ rookStats false []

/-- A single-king castling position: the white king may castle kingside. -/
def castleOkBoard : Board :=
  setCell (setCell emptyBoard ⟨4, 7⟩ (some wKingOk)) ⟨7, 7⟩ (some wRookOk)

/-- A white pawn added beside the single king, so that the amended
castling-safety statement can also be exercised on a non-king move. -/
def wPawnOk : Piece := mkPiece "white-pawn-a" PieceType.pawn Team.white ⟨0, 6⟩ pawnStats false []

/-- The single-king board with that pawn on it. -/
def pawnMoveBoard : Board := setCell castleOkBoard ⟨0, 6⟩ (some wPawnOk)

/-- The bishop that casts Holy Smite in the ability scenarios (raised to
the ability's level requirement). -/
def abBishop : Piece :=
  { mkPiece "w-bishop" PieceType.bishop Team.white ⟨2, 2⟩ bishopStats true [bishopSmite]
    with level := 4 }

/-- The enemy pawn targeted by Holy Smite. -/
def abTargetPawn : Piece := mkPiece "b-pawn" PieceType.pawn Team.black ⟨3, 3⟩ pawnStats true []

/-- Filler object for heap identifiers that are not on the board. -/
def defaultHeapPiece (id : String) : Piece :=
  mkPiece id PieceType.pawn Team.black ⟨0, 0⟩ pawnStats true []

/-- Object heap of the Holy Smite scenario. -/
def abHeap : Heap := fun id =>
  if id = "w-bishop" then abBishop
  else if id = "b-pawn" then abTargetPawn
  else defaultHeapPiece id

/-- Cell grid of the Holy Smite scenario. -/
def abGrid : Grid := fun pos =>
  if pos = ⟨2, 2⟩ then some "w-bishop" else if pos = ⟨3, 3⟩ then some "b-pawn" else none

/-- A pawn with 10 mana - not enough for Shield Wall's cost of 20. -/
def poorPawn : Piece :=
  mkPiece "w-pawn" PieceType.pawn Team.white ⟨4, 6⟩
    { pawnStats with currentMana := 10 } false [pawnCharge]

/-- Object heap of the insufficient-mana scenario. -/
def poorHeap : Heap := fun id => if id = "w-pawn" then poorPawn else defaultHeapPiece id

/-- Cell grid of the insufficient-mana scenario. -/
def poorGrid : Grid := fun pos => if pos = ⟨4, 6⟩ then some "w-pawn" else none

/-- A damage-over-time status effect (value 5, three turns left). -/
def burnEffect : StatusEffect :=
  { id := "burn", name := "Burn", type := StatusEffectType.dot,
    description := "fire damage", duration := 3, value := 5, icon := "fire",
    stackable := false }

/-- A black pawn carrying the burn effect, with 40 mana so that the
mana regeneration of `endTurn` is visible. -/
def burnedPawn : Piece :=
  { mkPiece "b-pawn-0" PieceType.pawn Team.black ⟨0, 1⟩
      { pawnStats with currentMana := 40 } false []
    with statusEffects := [burnEffect] }

/-- The same pawn with the burn effect one turn from expiring. -/
def almostHealedPawn : Piece :=
  { burnedPawn with statusEffects := [{ burnEffect with duration := 1 }] }

/-- A board holding only the burned pawn. -/
def burnBoard : Board := setCell emptyBoard ⟨0, 1⟩ (some burnedPawn)

/-- The hp/mana bounds invariant of the spec for a single piece. -/
def invPiece (p : Piece) : Prop :=
  0 ≤ p.stats.currentHp ∧ p.stats.currentHp ≤ p.stats.maxHp ∧
    0 ≤ p.stats.currentMana ∧ p.stats.currentMana ≤ p.stats.maxMana

/-- Every piece observable on a board satisfies the bounds invariant. -/
def invBoard (b : Board) : Prop := ∀ pos p, getCell b pos = some p → invPiece p

/-- Every piece object of a heap satisfies the bounds invariant (hence
also every piece observed through any grid over that heap). -/
def invHeap (h : Heap) : Prop := ∀ id, invPiece (h id)

instance (p : Piece) : Decidable (invPiece p) := by
  unfold invPiece
  infer_instance

/-- The bounds carried through the status-effect tick fold. -/
def invTick (st : StatusTickState) : Prop :=
  0 ≤ st.stats.currentHp ∧ st.stats.currentHp ≤ st.stats.maxHp ∧
    0 ≤ st.stats.currentMana ∧ st.stats.currentMana ≤ st.stats.maxMana

/-- Positional well-formedness: every occupant records the cell it
stands on (the spec's Board invariant). -/
def posWF (b : Board) : Prop := ∀ pos p, getCell b pos = some p → p.position = pos

/-- The fields of a cell occupant that move generation and check
detection consult. -/
structure PieceView : Type where
  type : PieceType
  team : Team
  position : Position
  isAlive : Bool
deriving DecidableEq, Repr

/-- The view of a board cell. -/
def viewCell (b : Board) (pos : Position) : Option PieceView :=
  (getCell b pos).map fun p => ⟨p.type, p.team, p.position, p.isAlive⟩

/-- The ray directions used by straight and diagonal move generation. -/
def rayDirs : List (Int × Int) :=
  [(0, 1), (0, -1), (1, 0), (-1, 0), (1, 1), (1, -1), (-1, 1), (-1, -1)]

/-- The `i`-th square of a sliding ray from `pos` in direction
`(dx, dy)` (the square the ray loop visits at index `i`). -/
def raySq (pos : Position) (dx dy i : Int) : Position :=
  ⟨pos.x + dx * i, pos.y + dy * i⟩

/-- C1: `movePiece` was claimed to keep a defender whose hit points
stay positive on the board with its reduced hp.  In the code the
attacker overwrites the destination cell unconditionally, so the
surviving defender (hp 50 → 10, still flagged alive) disappears from
the board: after the queen captures the pawn, only the queen occupies
the board. -/
theorem c1_surviving_defender_vanishes :
    (movePiece captureBoard ⟨0, 0⟩ ⟨0, 1⟩).moved = true ∧
    (movePiece captureBoard ⟨0, 0⟩ ⟨0, 1⟩).damage = some 40 ∧
    ((movePiece captureBoard ⟨0, 0⟩ ⟨0, 1⟩).defender.map fun p => p.stats.currentHp) =
      some 10 ∧
    ((movePiece captureBoard ⟨0, 0⟩ ⟨0, 1⟩).defender.map Piece.isAlive) = some true ∧
    occupiedIds (movePiece captureBoard ⟨0, 0⟩ ⟨0, 1⟩).board = ["white-queen"] := by
  decide

/-- C2 (counterexample): in the scenario of §8 of the spec - a queen
with 40 attack power capturing a pawn with defense 5 and 50 hp through
`movePiece` - the damage is not `max 1 (40 - 5) = 35` and the resulting
hp is not 15: `movePiece` does not subtract defense. -/
theorem c2_counterexample :
    (movePiece captureBoard ⟨0, 0⟩ ⟨0, 1⟩).damage ≠ some 35 ∧
    ((movePiece captureBoard ⟨0, 0⟩ ⟨0, 1⟩).defender.map fun p => p.stats.currentHp) ≠
      some 15 := by
  decide

/-- C2 (amended): the damage `movePiece` deals is the attacker's raw
`attackPower` 40, the pawn's resulting hp is 10, and its `isAlive` flag
stays `true` (although the attacker then occupies its square). -/
theorem c2_amended :
    (movePiece captureBoard ⟨0, 0⟩ ⟨0, 1⟩).damage = some 40 ∧
    ((movePiece captureBoard ⟨0, 0⟩ ⟨0, 1⟩).defender.map fun p => p.stats.currentHp) =
      some 10 ∧
    ((movePiece captureBoard ⟨0, 0⟩ ⟨0, 1⟩).defender.map Piece.isAlive) = some true := by
  decide

/-- C4 (counterexample): on a board where the moving side has a second
king, `getValidMoves` offers a castling destination whose application
leaves the moving side in check - the castling legality test simulates
the king placement without relocating the rook, so it misses that the
rook's departure from `(7, 3)` opens the black rook's file attack on
the white king at `(7, 0)`. -/
theorem c4_counterexample :
    (⟨6, 3⟩ : Position) ∈ getValidMoves cKingB castleTrapBoard ∧
    isKingInCheck Team.white (movePiece castleTrapBoard ⟨4, 3⟩ ⟨6, 3⟩).board = true := by
  decide

/-- C5 (counterexample): `executeAbility` does mutate the board it is
given - the piece objects are shared between the input board and the
returned copy, so after a successful Holy Smite the caster observed
through the *input* board has its mana reduced and the target observed
through the input board is dead at 0 hp. -/
theorem c5_counterexample :
    (executeAbility "w-bishop" bishopSmite ⟨3, 3⟩ abGrid abHeap).success = true ∧
    observeCell abGrid (executeAbility "w-bishop" bishopSmite ⟨3, 3⟩ abGrid abHeap).heap ⟨2, 2⟩
      ≠ observeCell abGrid abHeap ⟨2, 2⟩ ∧
    (observeCell abGrid (executeAbility "w-bishop" bishopSmite ⟨3, 3⟩ abGrid abHeap).heap ⟨2, 2⟩
      |>.map fun p => p.stats.currentMana) = some 55 ∧
    (observeCell abGrid (executeAbility "w-bishop" bishopSmite ⟨3, 3⟩ abGrid abHeap).heap ⟨3, 3⟩
      |>.map fun p => (p.stats.currentHp, p.isAlive)) = some (0, false) := by
  decide

/-- C6: when `canUseAbility` refuses (dead caster, insufficient mana,
cooldown, or level), `executeAbility` fails fast: it reports
`success = false` and leaves the grid, every piece object, and the
ability's cooldown state untouched. -/
theorem c6_execute_noop_on_failure (casterId : String) (ability : Ability)
    (targetPos : Position) (grid : Grid) (heap : Heap)
    (h : (canUseAbility (heap casterId) ability).1 = false) :
    (executeAbility casterId ability targetPos grid heap).success = false ∧
    (executeAbility casterId ability targetPos grid heap).grid = grid ∧
    (executeAbility casterId ability targetPos grid heap).heap = heap ∧
    (executeAbility casterId ability targetPos grid heap).ability = ability := by
  simp only [executeAbility, h]
  simp

/-- Witness for C6 at the scenario of §8 of the spec: a Self-target
ability (Shield Wall, cost 20) cast by a pawn with 10 mana fails with
no change to the caster's mana, the board, or the cooldown. -/
theorem c6_witness :
    (canUseAbility (poorHeap "w-pawn") pawnCharge).1 = false ∧
    (executeAbility "w-pawn" pawnCharge ⟨4, 6⟩ poorGrid poorHeap).success = false ∧
    (executeAbility "w-pawn" pawnCharge ⟨4, 6⟩ poorGrid poorHeap).heap = poorHeap ∧
    (executeAbility "w-pawn" pawnCharge ⟨4, 6⟩ poorGrid poorHeap).grid = poorGrid ∧
    (executeAbility "w-pawn" pawnCharge ⟨4, 6⟩ poorGrid poorHeap).ability = pawnCharge :=
  have h : (canUseAbility (poorHeap "w-pawn") pawnCharge).1 = false := by decide
  ⟨h, (c6_execute_noop_on_failure "w-pawn" pawnCharge ⟨4, 6⟩ poorGrid poorHeap h).1,
    (c6_execute_noop_on_failure "w-pawn" pawnCharge ⟨4, 6⟩ poorGrid poorHeap h).2.2.1,
    (c6_execute_noop_on_failure "w-pawn" pawnCharge ⟨4, 6⟩ poorGrid poorHeap h).2.1,
    (c6_execute_noop_on_failure "w-pawn" pawnCharge ⟨4, 6⟩ poorGrid poorHeap h).2.2.2⟩

/-- C9: the turn-advance step does not process status effects.  After
`endTurn` the burned pawn's damage-over-time effect still has duration
3 and its hp is untouched (only mana regenerated), while a call to the
never-invoked `processStatusEffects` would have decremented the
duration to 2, applied the 5 damage, and - for an effect reaching
duration 0 - removed it with a worn-off message. -/
theorem c9_endTurn_skips_status_effects :
    ((getCell (endTurnBoard Team.white burnBoard) ⟨0, 1⟩).map fun p =>
      (p.statusEffects.map StatusEffect.duration, p.stats.currentHp, p.stats.currentMana)) =
      some ([3], 50, 50) ∧
    (processStatusEffects burnedPawn).1.statusEffects.map StatusEffect.duration = [2] ∧
    (processStatusEffects burnedPawn).1.stats.currentHp = 45 ∧
    (processStatusEffects burnedPawn).2 = ["pawn takes 5 damage from Burn!"] ∧
    (processStatusEffects almostHealedPawn).1.statusEffects = [] ∧
    (processStatusEffects almostHealedPawn).2 =
      ["pawn takes 5 damage from Burn!", "Burn has worn off from pawn!"] := by
  decide

/-- No effect application step changes any piece object's mana: a fold
over targets with a pointwise mana-preserving step preserves mana. -/
theorem targetsFold_mana (f : EffectState → String → EffectState)
    (hf : ∀ st t id, ((f st t).heap id).stats.currentMana = (st.heap id).stats.currentMana)
    (targets : List String) (st : EffectState) (id : String) :
    ((targets.foldl f st).heap id).stats.currentMana = (st.heap id).stats.currentMana := by
  induction targets generalizing st with
  | nil => rfl
  | cons t rest ih => rw [List.foldl_cons, ih, hf]

/-- `applyDamageToTarget` changes hit points and life flags, never mana. -/
theorem applyDamageToTarget_mana (cid : String) (e : AbilityEffect) (st : EffectState)
    (t id : String) :
    ((applyDamageToTarget cid e st t).heap id).stats.currentMana =
      (st.heap id).stats.currentMana := by
  unfold applyDamageToTarget
  dsimp only
  split
  · rfl
  · split <;> simp only [updateHeap] <;> split <;> rfl

/-- `applyHealToTarget` changes hit points, never mana. -/
theorem applyHealToTarget_mana (cid : String) (e : AbilityEffect) (st : EffectState)
    (t id : String) :
    ((applyHealToTarget cid e st t).heap id).stats.currentMana =
      (st.heap id).stats.currentMana := by
  unfold applyHealToTarget
  dsimp only
  split
  · rfl
  · split <;> simp only [updateHeap] <;> split <;> rfl

/-- `applyStatusToTarget` changes status-effect lists, never mana. -/
theorem applyStatusToTarget_mana (cid : String) (e : AbilityEffect) (st : EffectState)
    (t id : String) :
    ((applyStatusToTarget cid e st t).heap id).stats.currentMana =
      (st.heap id).stats.currentMana := by
  unfold applyStatusToTarget
  dsimp only
  split
  · split
    · simp only [updateHeap]; split <;> rfl
    · rfl
  · rfl

/-- `applyTeleportEffect` changes positions, never mana. -/
theorem applyTeleportEffect_mana (cid : String) (tpos : Position) (st : EffectState)
    (id : String) :
    ((applyTeleportEffect cid tpos st).heap id).stats.currentMana =
      (st.heap id).stats.currentMana := by
  unfold applyTeleportEffect
  dsimp only
  simp only [updateHeap]
  split <;> rfl

/-- One effect of `executeAbility` never changes any object's mana. -/
theorem execEffect_mana (cid : String) (tpos : Position) (st : EffectState)
    (e : AbilityEffect) (id : String) :
    ((execEffect cid tpos st e).heap id).stats.currentMana =
      (st.heap id).stats.currentMana := by
  unfold execEffect
  cases e.type
  · exact targetsFold_mana _ (fun st t id => applyDamageToTarget_mana cid e st t id) _ st id
  · exact targetsFold_mana _ (fun st t id => applyHealToTarget_mana cid e st t id) _ st id
  · exact targetsFold_mana _ (fun st t id => applyStatusToTarget_mana cid e st t id) _ st id
  · exact targetsFold_mana _ (fun st t id => applyStatusToTarget_mana cid e st t id) _ st id
  · exact applyTeleportEffect_mana cid tpos st id
  · rfl
  · rfl

/-- The whole effect list of `executeAbility` never changes any
object's mana. -/
theorem effectFold_mana (cid : String) (tpos : Position) (effects : List AbilityEffect)
    (st : EffectState) (id : String) :
    ((effects.foldl (execEffect cid tpos) st).heap id).stats.currentMana =
      (st.heap id).stats.currentMana := by
  induction effects generalizing st with
  | nil => rfl
  | cons e rest ih => rw [List.foldl_cons, ih, execEffect_mana]

/-- C5 (amended): `executeAbility` succeeds when `canUseAbility`
allows, and its mutations hit the piece objects shared with the input
board: the caster object - the very object the input board's cell still
references - ends with its mana reduced by exactly the mana cost, while
the cell layer of the input board is only ever copied, never reassigned. -/
theorem c5_amended (casterId : String) (ability : Ability) (targetPos : Position)
    (grid : Grid) (heap : Heap)
    (h : (canUseAbility (heap casterId) ability).1 = true) :
    (executeAbility casterId ability targetPos grid heap).success = true ∧
    ((executeAbility casterId ability targetPos grid heap).heap casterId).stats.currentMana =
      (heap casterId).stats.currentMana - ability.manaCost := by
  unfold executeAbility
  dsimp only
  rw [h]
  simp only [Bool.true_eq_false, if_false]
  refine ⟨by trivial, ?_⟩
  rw [effectFold_mana]
  simp [updateHeap]

/-- Witness for C5 (amended) at the Holy Smite scenario: the execution
succeeds and the caster object visible through the input board drops
from 100 to 55 mana. -/
theorem c5_witness :
    (executeAbility "w-bishop" bishopSmite ⟨3, 3⟩ abGrid abHeap).success = true ∧
    ((executeAbility "w-bishop" bishopSmite ⟨3, 3⟩ abGrid abHeap).heap "w-bishop").stats.currentMana
      = 55 :=
  have h := c5_amended "w-bishop" bishopSmite ⟨3, 3⟩ abGrid abHeap (by decide)
  ⟨h.1, by rw [h.2]; decide⟩

/-- The source position of a cell occupant is a valid board position. -/
theorem getCell_valid (board : Board) (pos : Position) (p : Piece)
    (h : getCell board pos = some p) : isValidPosition pos = true := by
  unfold getCell at h
  by_cases hv : isValidPosition pos = true
  · exact hv
  · rw [Bool.not_eq_true] at hv
    rw [hv] at h
    simp at h

/-- A valid position is one of the 64 grid cells. -/
theorem valid_pos_exists (pos : Position) (h : isValidPosition pos = true) :
    ∃ x y : Nat, x < 8 ∧ y < 8 ∧ pos = ⟨(x : Int), (y : Int)⟩ := by
  unfold isValidPosition at h
  simp only [Bool.and_eq_true, decide_eq_true_eq] at h
  obtain ⟨⟨⟨hx0, hx8⟩, hy0⟩, hy8⟩ := h
  refine ⟨pos.x.toNat, pos.y.toNat, by omega, by omega, ?_⟩
  have e1 : ((pos.x.toNat : Int)) = pos.x := Int.toNat_of_nonneg hx0
  have e2 : ((pos.y.toNat : Int)) = pos.y := Int.toNat_of_nonneg hy0
  have epos : pos = ⟨pos.x, pos.y⟩ := rfl
  rw [epos, e1, e2]

/-- The no-legal-move scan of `isCheckmate`/`isStalemate` succeeds
exactly when every living piece of the team on the board has an empty
legal move list. -/
theorem teamHasNoValidMoves_iff (team : Team) (board : Board) :
    teamHasNoValidMoves team board = true ↔
      ∀ pos piece, getCell board pos = some piece → piece.team = team →
        piece.isAlive = true → getValidMoves piece board = [] := by
  unfold teamHasNoValidMoves
  simp only [List.all_eq_true, List.mem_range]
  constructor
  · intro h pos piece hcell hteam halive
    obtain ⟨x, y, hx, hy, rfl⟩ := valid_pos_exists pos (getCell_valid board pos piece hcell)
    have := h y hy x hx
    rw [hcell] at this
    dsimp only at this
    rw [if_pos ⟨hteam, halive⟩] at this
    exact List.isEmpty_iff.mp this
  · intro h y hy x hx
    cases hcell : getCell board ⟨(x : Int), (y : Int)⟩ with
    | none => rfl
    | some piece =>
      dsimp only
      by_cases hcond : piece.team = team ∧ piece.isAlive = true
      · rw [if_pos hcond]
        exact List.isEmpty_iff.mpr (h _ piece hcell hcond.1 hcond.2)
      · rw [if_neg hcond]

/-- C7: `isCheckmate team` holds exactly when the team is in check and
no living piece of the team has any legal (self-check-filtered) move,
and `isStalemate team` holds exactly when the team is not in check and
no living piece of the team has any legal move. -/
theorem c7_checkmate_stalemate_iff (team : Team) (board : Board) :
    (isCheckmate team board = true ↔
      (isKingInCheck team board = true ∧
        ∀ pos piece, getCell board pos = some piece → piece.team = team →
          piece.isAlive = true → getValidMoves piece board = [])) ∧
    (isStalemate team board = true ↔
      (isKingInCheck team board = false ∧
        ∀ pos piece, getCell board pos = some piece → piece.team = team →
          piece.isAlive = true → getValidMoves piece board = [])) := by
  constructor
  · unfold isCheckmate
    rw [Bool.and_eq_true, teamHasNoValidMoves_iff]
  · unfold isStalemate
    rw [Bool.and_eq_true, teamHasNoValidMoves_iff, Bool.not_eq_true']

/-- `makeMove` reads only the `fromPos`/`toPos` fields, so the score
recorded on a move does not affect its application. -/
theorem makeMove_score_irrel (board : Board) (m : AIMove) (s : Rat) :
    makeMove board { m with score := s } = makeMove board m := rfl

/-- Invariant of the maximizing loop: any move it returns carries as
score the static evaluation of the board immediately after that move -
the backed-up child value is discarded. -/
theorem maxLoop_score (ai : ChessAI) (board : Board) (d : Nat) (beta : XNum) :
    ∀ (moves : List AIMove) (alpha maxScore : XNum) (best : Option AIMove),
      (∀ m, best = some m → m.score = (evaluateBoard ai (makeMove board m)).score) →
      ∀ m, maxLoop ai board d beta moves alpha maxScore best = some m →
        m.score = (evaluateBoard ai (makeMove board m)).score := by
  intro moves
  induction moves with
  | nil =>
    intro alpha maxScore best hbest m hm
    rw [maxLoop] at hm
    exact hbest m hm
  | cons move rest ih =>
    intro alpha maxScore best hbest m hm
    rw [maxLoop] at hm
    have hbest1 : ∀ m,
        (if XNum.ltb maxScore (XNum.fin (evaluateBoard ai (makeMove board move)).score) then
          some { move with score := (evaluateBoard ai (makeMove board move)).score }
        else best) = some m →
        m.score = (evaluateBoard ai (makeMove board m)).score := by
      intro m' hm'
      split at hm'
      · cases hm'
        rfl
      · exact hbest m' hm'
    split at hm
    · exact hbest1 m hm
    · exact ih _ _ _ hbest1 m hm

/-- Invariant of the minimizing loop, symmetric to `maxLoop_score`. -/
theorem minLoop_score (ai : ChessAI) (board : Board) (d : Nat) (alpha : XNum) :
    ∀ (moves : List AIMove) (beta minScore : XNum) (best : Option AIMove),
      (∀ m, best = some m → m.score = (evaluateBoard ai (makeMove board m)).score) →
      ∀ m, minLoop ai board d alpha moves beta minScore best = some m →
        m.score = (evaluateBoard ai (makeMove board m)).score := by
  intro moves
  induction moves with
  | nil =>
    intro beta minScore best hbest m hm
    rw [minLoop] at hm
    exact hbest m hm
  | cons move rest ih =>
    intro beta minScore best hbest m hm
    rw [minLoop] at hm
    have hbest1 : ∀ m,
        (if XNum.ltb (XNum.fin (evaluateBoard ai (makeMove board move)).score) minScore then
          some { move with score := (evaluateBoard ai (makeMove board move)).score }
        else best) = some m →
        m.score = (evaluateBoard ai (makeMove board m)).score := by
      intro m' hm'
      split at hm'
      · cases hm'
        rfl
      · exact hbest m' hm'
    split at hm
    · exact hbest1 m hm
    · exact ih _ _ _ hbest1 m hm

/-- C3: at every search depth - including depths at least 2 - any move
`minimax` returns is scored with the static evaluation of the board
immediately after that move (the recursive `childMove` result is
discarded by the source), not with the backed-up max/min value of the
subtree below it; consequently alpha/beta are compared on these static
scores as well. -/
theorem c3_minimax_static_eval (ai : ChessAI) (board : Board) (depth : Nat)
    (alpha beta : XNum) (maximizing : Bool) :
    Option.all
      (fun m => decide (m.score = (evaluateBoard ai (makeMove board m)).score))
      (minimax ai board depth alpha beta maximizing) = true := by
  cases depth with
  | zero => rw [minimax]; rfl
  | succ d =>
    rw [minimax]
    split
    · split
      · rfl
      · cases hres : maxLoop ai board d beta
            (getAllPossibleMoves ai board (some ai.team)) alpha XNum.negInf none with
        | none => rfl
        | some m =>
          simp only [Option.all, decide_eq_true_eq]
          exact maxLoop_score ai board d beta _ alpha XNum.negInf none
            (fun m h => by cases h) m hres
    · split
      · rfl
      · cases hres : minLoop ai board d alpha
            (getAllPossibleMoves ai board (some (otherTeam ai.team))) beta XNum.posInf none with
        | none => rfl
        | some m =>
          simp only [Option.all, decide_eq_true_eq]
          exact minLoop_score ai board d alpha _ beta XNum.posInf none
            (fun m h => by cases h) m hres

/-- Membership in `getValidMoves`, unfolded to the per-type candidates
plus the validity and self-check filters. -/
theorem mem_getValidMoves_iff (piece : Piece) (board : Board) (m : Position) :
    m ∈ getValidMoves piece board ↔
      (m ∈ movesByType piece board ∧ isValidPosition m = true ∧
        wouldMoveResultInCheck piece m board = false) := by
  unfold getValidMoves
  rw [List.mem_filter]
  simp [Bool.and_eq_true, Bool.not_eq_true']

/-- A basic king step displaces each coordinate by at most one. -/
theorem mem_getBasicKingMoves_dx (piece : Piece) (board : Board) (m : Position)
    (h : m ∈ getBasicKingMoves piece board) :
    (m.x - piece.position.x).natAbs ≤ 1 := by
  unfold getBasicKingMoves at h
  rw [List.mem_filter] at h
  obtain ⟨hmem, _⟩ := h
  rw [List.mem_map] at hmem
  obtain ⟨d, hd, rfl⟩ := hmem
  fin_cases hd <;> simp

/-- Membership in the kingside castling block, characterised by the
conditions the source tests. -/
theorem mem_kingsideCastleMoves_iff (king : Piece) (board : Board) (m : Position) :
    m ∈ kingsideCastleMoves king board ↔
      (m = ⟨6, king.position.y⟩ ∧
        (∃ rook, getCell board ⟨7, king.position.y⟩ = some rook ∧
          rook.type = PieceType.rook ∧ rook.team = king.team ∧ rook.hasMoved = false) ∧
        getCell board ⟨5, king.position.y⟩ = none ∧
        getCell board ⟨6, king.position.y⟩ = none ∧
        wouldMoveResultInCheck king ⟨5, king.position.y⟩ board = false ∧
        wouldMoveResultInCheck king ⟨6, king.position.y⟩ board = false) := by
  unfold kingsideCastleMoves
  dsimp only
  split
  case h_1 rook hcell =>
    split_ifs with h1 h2 h3 <;>
      simp_all [Bool.and_eq_true, Option.isNone_iff_eq_none, Bool.not_eq_true']
  case h_2 hcell =>
    simp [hcell]

/-- Membership in the queenside castling block, characterised by the
conditions the source tests. -/
theorem mem_queensideCastleMoves_iff (king : Piece) (board : Board) (m : Position) :
    m ∈ queensideCastleMoves king board ↔
      (m = ⟨2, king.position.y⟩ ∧
        (∃ rook, getCell board ⟨0, king.position.y⟩ = some rook ∧
          rook.type = PieceType.rook ∧ rook.team = king.team ∧ rook.hasMoved = false) ∧
        getCell board ⟨1, king.position.y⟩ = none ∧
        getCell board ⟨2, king.position.y⟩ = none ∧
        getCell board ⟨3, king.position.y⟩ = none ∧
        wouldMoveResultInCheck king ⟨3, king.position.y⟩ board = false ∧
        wouldMoveResultInCheck king ⟨2, king.position.y⟩ board = false) := by
  unfold queensideCastleMoves
  dsimp only
  split
  case h_1 rook hcell =>
    split_ifs with h1 h2 h3 <;>
      simp_all [Bool.and_eq_true, Option.isNone_iff_eq_none, Bool.not_eq_true']
  case h_2 hcell =>
    simp [hcell]

/-- Membership in the conditional castling part of `getKingMoves`. -/
theorem mem_castle_ite_iff (king : Piece) (board : Board) (m : Position) :
    (m ∈ (if king.hasMoved = false && !(isKingInCheck king.team board) then
        getCastlingMoves king board
      else [])) ↔
      (king.hasMoved = false ∧ isKingInCheck king.team board = false ∧
        m ∈ getCastlingMoves king board) := by
  split
  case isTrue hcond =>
    simp only [Bool.and_eq_true, decide_eq_true_eq, Bool.not_eq_true'] at hcond
    simp [hcond.1, hcond.2]
  case isFalse hcond =>
    simp only [Bool.and_eq_true, decide_eq_true_eq, Bool.not_eq_true'] at hcond
    simp only [List.not_mem_nil, false_iff]
    intro hc
    exact hcond ⟨hc.1, hc.2.1⟩

/-- C8: for a king standing at `(4, y)`, the move set produced by
`getValidMoves` contains the castling destination two squares toward a
rook exactly when the source's castling conditions hold: the king has
not moved, is not currently in check, the rook on that side is a
friendly unmoved rook, every square between king and rook is empty, and
the simulated placements of the king on the transit square and on the
destination square are both safe (`wouldMoveResultInCheck` is the
simulation used). -/
theorem c8_castling_iff (king : Piece) (board : Board) (y : Int)
    (htype : king.type = PieceType.king) (hpos : king.position = ⟨4, y⟩)
    (hy0 : 0 ≤ y) (hy8 : y < 8) :
    ((⟨6, y⟩ : Position) ∈ getValidMoves king board ↔
      (king.hasMoved = false ∧ isKingInCheck king.team board = false ∧
        (∃ rook, getCell board ⟨7, y⟩ = some rook ∧ rook.type = PieceType.rook ∧
          rook.team = king.team ∧ rook.hasMoved = false) ∧
        getCell board ⟨5, y⟩ = none ∧ getCell board ⟨6, y⟩ = none ∧
        wouldMoveResultInCheck king ⟨5, y⟩ board = false ∧
        wouldMoveResultInCheck king ⟨6, y⟩ board = false)) ∧
    ((⟨2, y⟩ : Position) ∈ getValidMoves king board ↔
      (king.hasMoved = false ∧ isKingInCheck king.team board = false ∧
        (∃ rook, getCell board ⟨0, y⟩ = some rook ∧ rook.type = PieceType.rook ∧
          rook.team = king.team ∧ rook.hasMoved = false) ∧
        getCell board ⟨1, y⟩ = none ∧ getCell board ⟨2, y⟩ = none ∧
        getCell board ⟨3, y⟩ = none ∧
        wouldMoveResultInCheck king ⟨3, y⟩ board = false ∧
        wouldMoveResultInCheck king ⟨2, y⟩ board = false)) := by
  have hmoves : movesByType king board = getKingMoves king board := by
    unfold movesByType
    rw [htype]
  have hky : king.position.y = y := by rw [hpos]
  have hkx : king.position.x = 4 := by rw [hpos]
  have hbasic : ∀ m : Position, (m.x - (4 : Int)).natAbs = 2 →
      m ∉ getBasicKingMoves king board := by
    intro m hdx hmem
    have := mem_getBasicKingMoves_dx king board m hmem
    rw [hkx] at this
    omega
  have hvalid6 : isValidPosition (⟨6, y⟩ : Position) = true := by
    unfold isValidPosition
    simp only [Bool.and_eq_true, decide_eq_true_eq]
    omega
  have hvalid2 : isValidPosition (⟨2, y⟩ : Position) = true := by
    unfold isValidPosition
    simp only [Bool.and_eq_true, decide_eq_true_eq]
    omega
  constructor
  · rw [mem_getValidMoves_iff, hmoves]
    unfold getKingMoves
    rw [List.mem_append, mem_castle_ite_iff]
    unfold getCastlingMoves
    rw [List.mem_append, mem_kingsideCastleMoves_iff, mem_queensideCastleMoves_iff, hky]
    constructor
    · rintro ⟨hmem, -, hwould⟩
      rcases hmem with hbasicmem | ⟨hmv, hchk, hside⟩
      · exact absurd hbasicmem (hbasic _ (by norm_num))
      · rcases hside with ⟨-, hcnd⟩ | ⟨heq, -⟩
        · exact ⟨hmv, hchk, hcnd.1, hcnd.2.1, hcnd.2.2.1, hcnd.2.2.2.1, hwould⟩
        · exact absurd heq (by simp)
    · rintro ⟨hmv, hchk, hrook, h5, h6, hw5, hw6⟩
      exact ⟨Or.inr ⟨hmv, hchk, Or.inl ⟨rfl, hrook, h5, h6, hw5, hw6⟩⟩, hvalid6, hw6⟩
  · rw [mem_getValidMoves_iff, hmoves]
    unfold getKingMoves
    rw [List.mem_append, mem_castle_ite_iff]
    unfold getCastlingMoves
    rw [List.mem_append, mem_kingsideCastleMoves_iff, mem_queensideCastleMoves_iff, hky]
    constructor
    · rintro ⟨hmem, -, hwould⟩
      rcases hmem with hbasicmem | ⟨hmv, hchk, hside⟩
      · exact absurd hbasicmem (hbasic _ (by norm_num))
      · rcases hside with ⟨heq, -⟩ | ⟨-, hcnd⟩
        · exact absurd heq (by simp)
        · exact ⟨hmv, hchk, hcnd.1, hcnd.2.1, hcnd.2.2.1, hcnd.2.2.2.1,
            hcnd.2.2.2.2.1, hwould⟩
    · rintro ⟨hmv, hchk, hrook, h1, h2, h3, hw3, hw2⟩
      exact ⟨Or.inr ⟨hmv, hchk, Or.inr ⟨rfl, hrook, h1, h2, h3, hw3, hw2⟩⟩, hvalid2, hw2⟩

/-- Witness for C8 on a concrete single-king position: with the king at
`(4, 7)` and an unmoved rook at `(7, 7)`, the kingside destination
`(6, 7)` is offered, and the queenside destination `(2, 7)` is not
(there is no queenside rook). -/
theorem c8_witness :
    (⟨6, 7⟩ : Position) ∈ getValidMoves wKingOk castleOkBoard ∧
    (⟨2, 7⟩ : Position) ∉ getValidMoves wKingOk castleOkBoard := by
  have h := c8_castling_iff wKingOk castleOkBoard 7 (by decide) (by decide)
    (by decide) (by decide)
  constructor
  · exact h.1.mpr ⟨by decide, by decide,
      ⟨wRookOk, by decide, by decide, by decide, by decide⟩,
      by decide, by decide, by decide, by decide⟩
  · intro hmem
    obtain ⟨-, -, ⟨rook, hcell, -⟩, -⟩ := h.2.mp hmem
    have hnone : getCell castleOkBoard ⟨0, 7⟩ = none := by decide
    rw [hnone] at hcell
    cases hcell

/-- Reading an updated cell. -/
theorem getCell_setCell (b : Board) (pos q : Position) (v : Option Piece) :
    getCell (setCell b pos v) q =
      if isValidPosition q then (if q = pos then v else b q) else none := by
  unfold getCell setCell
  by_cases hv : isValidPosition q = true <;> by_cases he : q = pos <;> simp [hv, he]

/-- Mana regeneration keeps the bounds: the clamp to `maxMana` never
pushes mana above it, and adding 10 to a non-negative mana keeps it
non-negative. -/
theorem regenPiece_inv (nt : Team) (q : Piece) (h : invPiece q) :
    invPiece (regenPiece nt q) := by
  unfold regenPiece
  unfold invPiece at h ⊢
  split_ifs with hc
  · dsimp only
    refine ⟨h.1, h.2.1, ?_, ?_⟩
    · have := h.2.2.1
      omega
    · have := h.2.2.2
      omega
  · exact h

/-- The temporary-HP tick does not touch hp or mana. -/
theorem tickTempHp_inv (q : Piece) (h : invPiece q) : invPiece (tickTempHp q) := by
  unfold tickTempHp
  unfold invPiece at h ⊢
  split
  · dsimp only
    split_ifs <;> exact h
  · exact h

/-- The board effect of `endTurn` preserves the hp/mana bounds: in
particular the 10-point regeneration is clamped to `maxMana` and never
pushes any piece's mana above it. -/
theorem endTurnBoard_inv (t : Team) (b : Board) (hinv : invBoard b) :
    invBoard (endTurnBoard t b) := by
  intro pos p hcell
  unfold getCell at hcell
  by_cases hv : isValidPosition pos = true
  · rw [if_pos hv] at hcell
    unfold endTurnBoard at hcell
    cases hb : b pos with
    | none => rw [hb] at hcell; simp at hcell
    | some q =>
      rw [hb] at hcell
      have hq : invPiece q := hinv pos q (by unfold getCell; rw [if_pos hv, hb])
      simp only [Option.map_some'] at hcell
      injection hcell with hcell
      subst hcell
      exact tickTempHp_inv _ (regenPiece_inv _ _ hq)
  · rw [Bool.not_eq_true] at hv
    rw [hv] at hcell
    simp at hcell

/-- A cell update preserves board-wide bounds when the written value
does. -/
theorem invBoard_setCell (b : Board) (pos : Position) (v : Option Piece)
    (hinv : invBoard b) (hv : ∀ p, v = some p → invPiece p) :
    invBoard (setCell b pos v) := by
  intro q p hcell
  unfold getCell setCell at hcell
  split_ifs at hcell with h1 h2
  · exact hv p hcell
  · exact hinv q p (by unfold getCell; rw [if_pos h1]; exact hcell)

/-- `executeCastling` relocates a rook without touching its stats, so
it preserves the hp/mana bounds of every observable piece. -/
theorem executeCastling_inv (king : Piece) (toPos : Position) (b : Board)
    (hinv : invBoard b) : invBoard (executeCastling king toPos b) := by
  unfold executeCastling
  dsimp only
  split
  case h_1 rook hrook =>
    apply invBoard_setCell
    · apply invBoard_setCell b _ _ hinv
      intro p hp
      injection hp with hp
      subst hp
      have := hinv _ _ hrook
      unfold invPiece at this ⊢
      exact this
    · intro p hp
      cases hp
  case h_2 => exact hinv

/-- The defender object left behind by a `movePiece` capture keeps the
hp bounds, given a non-negative attack power. -/
theorem movePiece_defender_inv (b : Board) (fromPos toPos : Position)
    (hatk : ∀ q, getCell b fromPos = some q → 0 ≤ q.stats.attackPower)
    (hinv : invBoard b) :
    ∀ dp, (movePiece b fromPos toPos).defender = some dp → invPiece dp := by
  intro dp hdp
  unfold movePiece at hdp
  split at hdp
  case h_1 => exact absurd hdp (by simp)
  case h_2 piece heq =>
    split at hdp
    case isTrue =>
      dsimp only at hdp
      cases htarget : getCell b toPos with
      | none => rw [htarget] at hdp; exact absurd hdp (by simp)
      | some target =>
        rw [htarget] at hdp
        simp only [Option.map_some'] at hdp
        injection hdp with hdp
        subst hdp
        have ht := hinv _ _ htarget
        have hp := hatk piece heq
        unfold movePieceDefender
        dsimp only
        unfold invPiece at ht ⊢
        split_ifs <;> dsimp only <;> omega
    case isFalse => exact absurd hdp (by simp)

/-- The board produced by `movePiece` preserves the hp/mana bounds:
every cell holds either an untouched piece, the moved piece (stats
unchanged), or the relocated castling rook (stats unchanged); a
defender is either removed or overwritten. -/
theorem movePiece_board_inv (b : Board) (fromPos toPos : Position)
    (hinv : invBoard b) : invBoard (movePiece b fromPos toPos).board := by
  unfold movePiece
  split
  case h_1 => dsimp only; exact hinv
  case h_2 piece heq =>
    split
    case isTrue =>
      dsimp only
      have hb1 : invBoard (if isCastlingMove piece toPos = true then
          executeCastling piece toPos b else b) := by
        split
        · exact executeCastling_inv piece toPos b hinv
        · exact hinv
      apply invBoard_setCell
      · apply invBoard_setCell _ _ _ hb1
        intro p hp
        injection hp with hp
        subst hp
        have := hinv _ _ heq
        unfold invPiece at this ⊢
        exact this
      · intro p hp
        cases hp
    case isFalse => dsimp only; exact hinv

/-- A heap update preserves heap-wide bounds when the updated object
does. -/
theorem invHeap_update (h : Heap) (id : String) (f : Piece → Piece)
    (hinv : invHeap h) (hf : invPiece (f (h id))) : invHeap (updateHeap h id f) := by
  intro j
  unfold updateHeap
  by_cases hj : j = id
  · rw [if_pos hj, hj]
    exact hf
  · rw [if_neg hj]
    exact hinv j

/-- A fold over targets with a pointwise heap-bounds-preserving step
preserves heap-wide bounds. -/
theorem targetsFold_inv (f : EffectState → String → EffectState)
    (hf : ∀ st t, invHeap st.heap → invHeap (f st t).heap)
    (targets : List String) (st : EffectState) (hinv : invHeap st.heap) :
    invHeap ((targets.foldl f st).heap) := by
  induction targets generalizing st with
  | nil => exact hinv
  | cons t rest ih => rw [List.foldl_cons]; exact ih _ (hf st t hinv)

/-- Ability damage clamps hit points into `[0, old hp]`, so the bounds
survive (the actual damage is at least 1). -/
theorem applyDamageToTarget_inv (cid : String) (e : AbilityEffect) (st : EffectState)
    (t : String) (hinv : invHeap st.heap) : invHeap (applyDamageToTarget cid e st t).heap := by
  unfold applyDamageToTarget
  dsimp only
  split_ifs with h1 h2
  · exact hinv
  · dsimp only
    apply invHeap_update
    · apply invHeap_update _ _ _ hinv
      have := hinv t
      unfold invPiece at this ⊢
      dsimp only
      omega
    · have := hinv t
      unfold updateHeap
      rw [if_pos rfl]
      unfold invPiece at this ⊢
      dsimp only
      omega
  · apply invHeap_update _ _ _ hinv
    have := hinv t
    unfold invPiece at this ⊢
    dsimp only
    omega

/-- Ability healing clamps hit points to `maxHp` and, with a
non-negative heal value, keeps them non-negative. -/
theorem applyHealToTarget_inv (cid : String) (e : AbilityEffect) (st : EffectState)
    (t : String) (hval : 0 ≤ e.value.getD 0) (hinv : invHeap st.heap) :
    invHeap (applyHealToTarget cid e st t).heap := by
  unfold applyHealToTarget
  dsimp only
  split_ifs with h1 h2
  · exact hinv
  · apply invHeap_update _ _ _ hinv
    have := hinv t
    unfold invPiece at this ⊢
    dsimp only
    omega
  · apply invHeap_update _ _ _ hinv
    have := hinv t
    unfold invPiece at this ⊢
    dsimp only
    omega

/-- Status attachment does not touch stats. -/
theorem applyStatusToTarget_inv (cid : String) (e : AbilityEffect) (st : EffectState)
    (t : String) (hinv : invHeap st.heap) : invHeap (applyStatusToTarget cid e st t).heap := by
  unfold applyStatusToTarget
  dsimp only
  split_ifs with h1
  · split
    · apply invHeap_update _ _ _ hinv
      have := hinv t
      unfold invPiece at this ⊢
      dsimp only
      exact this
    · exact hinv
  · exact hinv

/-- Teleporting does not touch stats. -/
theorem applyTeleportEffect_inv (cid : String) (tpos : Position) (st : EffectState)
    (hinv : invHeap st.heap) : invHeap (applyTeleportEffect cid tpos st).heap := by
  unfold applyTeleportEffect
  dsimp only
  apply invHeap_update _ _ _ hinv
  have := hinv cid
  unfold invPiece at this ⊢
  dsimp only
  exact this

/-- One effect application of `executeAbility` preserves heap-wide
bounds (heal effects need a non-negative value). -/
theorem execEffect_inv (cid : String) (tpos : Position) (st : EffectState)
    (e : AbilityEffect) (hheal : e.type = EffectKind.heal → 0 ≤ e.value.getD 0)
    (hinv : invHeap st.heap) : invHeap (execEffect cid tpos st e).heap := by
  unfold execEffect
  cases he : e.type
  · exact targetsFold_inv _ (fun st t h => applyDamageToTarget_inv cid e st t h) _ st hinv
  · exact targetsFold_inv _ (fun st t h => applyHealToTarget_inv cid e st t (hheal he) h)
      _ st hinv
  · exact targetsFold_inv _ (fun st t h => applyStatusToTarget_inv cid e st t h) _ st hinv
  · exact targetsFold_inv _ (fun st t h => applyStatusToTarget_inv cid e st t h) _ st hinv
  · exact applyTeleportEffect_inv cid tpos st hinv
  · exact hinv
  · exact hinv

/-- The whole effect list of an ability preserves heap-wide bounds. -/
theorem effectsFold_inv (cid : String) (tpos : Position) (effects : List AbilityEffect)
    (hheal : ∀ e ∈ effects, e.type = EffectKind.heal → 0 ≤ e.value.getD 0)
    (st : EffectState) (hinv : invHeap st.heap) :
    invHeap ((effects.foldl (execEffect cid tpos) st).heap) := by
  induction effects generalizing st with
  | nil => exact hinv
  | cons e rest ih =>
    rw [List.foldl_cons]
    exact ih (fun e' he' => hheal e' (List.mem_cons_of_mem _ he'))
      _ (execEffect_inv cid tpos st e (hheal e (List.mem_cons_self _ _)) hinv)

/-- A piece allowed to cast has at least the ability's mana cost. -/
theorem canUseAbility_mana (p : Piece) (a : Ability)
    (h : (canUseAbility p a).1 = true) : a.manaCost ≤ p.stats.currentMana := by
  unfold canUseAbility at h
  split_ifs at h with h1 h2 h3 h4
  omega

/-- `executeAbility` preserves heap-wide hp/mana bounds: on failure
nothing changes, and on success the mana deduction is covered by the
`canUseAbility` mana check while every effect clamps what it touches. -/
theorem executeAbility_inv (cid : String) (ability : Ability) (tpos : Position)
    (grid : Grid) (heap : Heap) (hinv : invHeap heap) (hcost : 0 ≤ ability.manaCost)
    (hheal : ∀ e ∈ ability.effects, e.type = EffectKind.heal → 0 ≤ e.value.getD 0) :
    invHeap (executeAbility cid ability tpos grid heap).heap := by
  unfold executeAbility
  dsimp only
  split_ifs with hfail
  · exact hinv
  · have hcan : (canUseAbility (heap cid) ability).1 = true := by
      cases hb : (canUseAbility (heap cid) ability).1
      · exact absurd hb hfail
      · rfl
    have hmana := canUseAbility_mana (heap cid) ability hcan
    apply effectsFold_inv cid tpos ability.effects hheal
    apply invHeap_update _ _ _ hinv
    have := hinv cid
    unfold invPiece at this ⊢
    dsimp only
    omega

/-- One status-effect tick preserves the bounds: damage over time is
clamped at 0, heal over time at `maxHp` (a non-negative effect value is
needed so damage cannot heal past `maxHp` and healing cannot damage
below 0). -/
theorem statusTickStep_inv (pt : PieceType) (st : StatusTickState) (e : StatusEffect)
    (hval : 0 ≤ e.value) (h : invTick st) : invTick (statusTickStep pt st e) := by
  unfold statusTickStep
  dsimp only
  unfold invTick at h ⊢
  split_ifs <;> dsimp only <;> omega

/-- `processStatusEffects` keeps the piece inside the hp/mana bounds
when every effect value is non-negative. -/
theorem processStatusEffects_inv (piece : Piece)
    (hse : ∀ e ∈ piece.statusEffects, 0 ≤ e.value) (hinv : invPiece piece) :
    invPiece (processStatusEffects piece).1 := by
  unfold processStatusEffects
  dsimp only
  have hfold : ∀ (effects : List StatusEffect), (∀ e ∈ effects, 0 ≤ e.value) →
      ∀ st : StatusTickState, invTick st →
        invTick (effects.foldl (statusTickStep piece.type) st) := by
    intro effects
    induction effects with
    | nil => intro _ st h; exact h
    | cons e rest ih =>
      intro hvals st h
      rw [List.foldl_cons]
      exact ih (fun e' he' => hvals e' (List.mem_cons_of_mem _ he'))
        _ (statusTickStep_inv piece.type st e (hvals e (List.mem_cons_self _ _)) h)
  have := hfold piece.statusEffects hse
    { stats := piece.stats, isAlive := piece.isAlive, kept := [], messages := [] }
    (by unfold invTick; dsimp only; unfold invPiece at hinv; exact hinv)
  unfold invTick at this
  unfold invPiece
  dsimp only
  exact this

/-- C10: every operation preserves `0 ≤ currentHp ≤ maxHp` and
`0 ≤ currentMana ≤ maxMana` for the pieces it leaves observable: the
`movePiece` capture (both the resulting board and the defender object,
given a non-negative attack power), ability damage and heal effects
(heal values are non-negative, as in every shipped ability), status
ticks (likewise non-negative values), and the end-of-turn regeneration,
whose clamp never pushes mana above `maxMana`. -/
theorem c10_invariants (t : Team) (b : Board) (fromPos toPos : Position)
    (cid : String) (ability : Ability) (tpos : Position) (grid : Grid) (heap : Heap)
    (piece : Piece)
    (hb : invBoard b)
    (hatk : ∀ q, getCell b fromPos = some q → 0 ≤ q.stats.attackPower)
    (hheap : invHeap heap) (hcost : 0 ≤ ability.manaCost)
    (hheal : ∀ e ∈ ability.effects, e.type = EffectKind.heal → 0 ≤ e.value.getD 0)
    (hpiece : invPiece piece) (hse : ∀ e ∈ piece.statusEffects, 0 ≤ e.value) :
    invBoard (movePiece b fromPos toPos).board ∧
    (∀ dp, (movePiece b fromPos toPos).defender = some dp → invPiece dp) ∧
    invHeap (executeAbility cid ability tpos grid heap).heap ∧
    invPiece (processStatusEffects piece).1 ∧
    invBoard (endTurnBoard t b) :=
  ⟨movePiece_board_inv b fromPos toPos hb,
    movePiece_defender_inv b fromPos toPos hatk hb,
    executeAbility_inv cid ability tpos grid heap hheap hcost hheal,
    processStatusEffects_inv piece hse hpiece,
    endTurnBoard_inv t b hb⟩

/-- Witness for C10 at concrete inputs: the capture scenario board, the
Holy Smite execution, and the burned pawn's tick and turn end. -/
theorem c10_witness :
    invBoard (movePiece captureBoard ⟨0, 0⟩ ⟨0, 1⟩).board ∧
    (∀ dp, (movePiece captureBoard ⟨0, 0⟩ ⟨0, 1⟩).defender = some dp → invPiece dp) ∧
    invHeap (executeAbility "w-bishop" bishopSmite ⟨3, 3⟩ abGrid abHeap).heap ∧
    invPiece (processStatusEffects burnedPawn).1 ∧
    invBoard (endTurnBoard Team.white captureBoard) := by
  have hb : invBoard captureBoard := by
    intro pos p hcell
    unfold captureBoard getCell setCell emptyBoard at hcell
    split_ifs at hcell <;>
      (injection hcell with hcell; subst hcell; decide)
  have hdefault : ∀ id, invPiece (defaultHeapPiece id) := by
    intro id
    unfold defaultHeapPiece mkPiece pawnStats invPiece
    norm_num
  have hheap : invHeap abHeap := by
    intro id
    unfold abHeap
    split_ifs
    · decide
    · decide
    · exact hdefault id
  exact c10_invariants Team.white captureBoard ⟨0, 0⟩ ⟨0, 1⟩ "w-bishop" bishopSmite
    ⟨3, 3⟩ abGrid abHeap burnedPawn hb
    (by
      intro q h
      rw [show getCell captureBoard ⟨0, 0⟩ = some captureQueen from by decide] at h
      injection h with h
      subst h
      decide)
    hheap (by decide) (by decide) (by decide) (by decide)

/-- `positionsEqual` is propositional equality. -/
theorem positionsEqual_iff (a b : Position) : positionsEqual a b = true ↔ a = b := by
  unfold positionsEqual
  cases a
  cases b
  simp [Position.mk.injEq]

/-- A member of `getValidMoves` passes `isMoveValid`. -/
theorem isMoveValid_of_mem (piece : Piece) (toPos : Position) (board : Board)
    (h : toPos ∈ getValidMoves piece board) : isMoveValid piece toPos board = true := by
  unfold isMoveValid
  rw [List.any_eq_true]
  exact ⟨toPos, h, (positionsEqual_iff toPos toPos).mpr rfl⟩

/-- Updating a cell with a correctly-positioned occupant preserves
positional well-formedness. -/
theorem posWF_setCell (b : Board) (pos : Position) (v : Option Piece)
    (hwf : posWF b) (hv : ∀ p, v = some p → p.position = pos) :
    posWF (setCell b pos v) := by
  intro q p hcell
  unfold getCell setCell at hcell
  split_ifs at hcell with h1 h2
  · rw [hv p hcell, h2]
  · exact hwf q p (by unfold getCell; rw [if_pos h1]; exact hcell)

/-- Two view-equal cells are either both empty or hold pieces agreeing
on every consulted field. -/
theorem viewCell_cases (b1 b2 : Board) (pos : Position)
    (h : viewCell b1 pos = viewCell b2 pos) :
    (getCell b1 pos = none ∧ getCell b2 pos = none) ∨
      (∃ p1 p2, getCell b1 pos = some p1 ∧ getCell b2 pos = some p2 ∧
        p1.type = p2.type ∧ p1.team = p2.team ∧ p1.position = p2.position ∧
        p1.isAlive = p2.isAlive) := by
  unfold viewCell at h
  cases h1 : getCell b1 pos with
  | none =>
    cases h2 : getCell b2 pos with
    | none => exact Or.inl ⟨rfl, rfl⟩
    | some p2 => rw [h1, h2] at h; simp at h
  | some p1 =>
    cases h2 : getCell b2 pos with
    | none => rw [h1, h2] at h; simp at h
    | some p2 =>
      rw [h1, h2] at h
      simp only [Option.map_some', Option.some.injEq, PieceView.mk.injEq] at h
      exact Or.inr ⟨p1, p2, rfl, rfl, h.1, h.2.1, h.2.2.1, h.2.2.2⟩

/-- `findSome?` respects pointwise-equal selector functions. -/
theorem findSome?_ext {α β : Type} (f g : α → Option β) (l : List α)
    (h : ∀ a, f a = g a) : l.findSome? f = l.findSome? g := by
  induction l with
  | nil => rfl
  | cons hd tl ih => rw [List.findSome?_cons, List.findSome?_cons, h hd, ih]

/-- `any` respects pointwise-equal predicates. -/
theorem any_ext {α : Type} (f g : α → Bool) (l : List α)
    (h : ∀ a, f a = g a) : l.any f = l.any g := by
  induction l with
  | nil => rfl
  | cons hd tl ih => rw [List.any_cons, List.any_cons, h hd, ih]

/-- Occupancy agreement extracted from view-equal cells. -/
theorem viewCell_isNone (b1 b2 : Board) (pos : Position)
    (h : viewCell b1 pos = viewCell b2 pos) :
    (getCell b1 pos).isNone = (getCell b2 pos).isNone := by
  rcases viewCell_cases b1 b2 pos h with ⟨hn1, hn2⟩ | ⟨q1, q2, hs1, hs2, -⟩
  · rw [hn1, hn2]
  · rw [hs1, hs2]
    rfl

/-- The capture predicate of pawn moves agrees on view-equal cells. -/
theorem viewCell_capture (b1 b2 : Board) (pos : Position) (t : Team)
    (h : viewCell b1 pos = viewCell b2 pos) :
    (match getCell b1 pos with
      | some target => target.team != t
      | none => false) =
    (match getCell b2 pos with
      | some target => target.team != t
      | none => false) := by
  rcases viewCell_cases b1 b2 pos h with ⟨hn1, hn2⟩ | ⟨q1, q2, hs1, hs2, -, ht, -⟩
  · rw [hn1, hn2]
  · rw [hs1, hs2]
    dsimp only
    rw [ht]

/-- The step predicate of knight and king moves agrees on view-equal
cells. -/
theorem viewCell_step (b1 b2 : Board) (pos : Position) (t : Team)
    (h : viewCell b1 pos = viewCell b2 pos) :
    (match getCell b1 pos with
      | some target => target.team != t
      | none => true) =
    (match getCell b2 pos with
      | some target => target.team != t
      | none => true) := by
  rcases viewCell_cases b1 b2 pos h with ⟨hn1, hn2⟩ | ⟨q1, q2, hs1, hs2, -, ht, -⟩
  · rw [hn1, hn2]
  · rw [hs1, hs2]
    dsimp only
    rw [ht]

/-- One sliding ray produces the same squares on two boards whose cells
agree on occupancy and team, for movers agreeing on team and position. -/
theorem rayLoop_congr (p1 p2 : Piece) (b1 b2 : Board) (dx dy : Int)
    (hteam : p1.team = p2.team) (hpos : p1.position = p2.position)
    (hview : ∀ pos, viewCell b1 pos = viewCell b2 pos) :
    ∀ (fuel : Nat) (i : Int), rayLoop p1 b1 dx dy fuel i = rayLoop p2 b2 dx dy fuel i := by
  intro fuel
  induction fuel with
  | zero => intro i; rfl
  | succ fuel ih =>
    intro i
    rw [rayLoop, rayLoop, hpos, hteam]
    rcases viewCell_cases b1 b2 ⟨p2.position.x + dx * i, p2.position.y + dy * i⟩
        (hview _) with ⟨hn1, hn2⟩ | ⟨q1, q2, hs1, hs2, -, hteamq, -, -⟩
    · rw [hn1, hn2, ih]
    · rw [hs1, hs2]
      dsimp only
      rw [hteamq]

/-- Pawn moves agree on view-equal boards for view-equal movers. -/
theorem getPawnMoves_congr (p1 p2 : Piece) (b1 b2 : Board)
    (hteam : p1.team = p2.team) (hpos : p1.position = p2.position)
    (hview : ∀ pos, viewCell b1 pos = viewCell b2 pos) :
    getPawnMoves p1 b1 = getPawnMoves p2 b2 := by
  unfold getPawnMoves
  rw [hpos, hteam]
  have hnone : ∀ pos, (getCell b1 pos).isNone = (getCell b2 pos).isNone :=
    fun pos => viewCell_isNone b1 b2 pos (hview pos)
  have hcap : ∀ pos, (match getCell b1 pos with
      | some target => target.team != p2.team
      | none => false) = (match getCell b2 pos with
      | some target => target.team != p2.team
      | none => false) :=
    fun pos => viewCell_capture b1 b2 pos p2.team (hview pos)
  simp only [hnone, hcap]

/-- Knight moves agree on view-equal boards for view-equal movers. -/
theorem getKnightMoves_congr (p1 p2 : Piece) (b1 b2 : Board)
    (hteam : p1.team = p2.team) (hpos : p1.position = p2.position)
    (hview : ∀ pos, viewCell b1 pos = viewCell b2 pos) :
    getKnightMoves p1 b1 = getKnightMoves p2 b2 := by
  unfold getKnightMoves
  rw [hpos, hteam]
  have hstep : ∀ pos, (match getCell b1 pos with
      | some target => target.team != p2.team
      | none => true) = (match getCell b2 pos with
      | some target => target.team != p2.team
      | none => true) :=
    fun pos => viewCell_step b1 b2 pos p2.team (hview pos)
  simp only [hstep]

/-- Basic king moves agree on view-equal boards for view-equal movers. -/
theorem getBasicKingMoves_congr (p1 p2 : Piece) (b1 b2 : Board)
    (hteam : p1.team = p2.team) (hpos : p1.position = p2.position)
    (hview : ∀ pos, viewCell b1 pos = viewCell b2 pos) :
    getBasicKingMoves p1 b1 = getBasicKingMoves p2 b2 := by
  unfold getBasicKingMoves
  rw [hpos, hteam]
  have hstep : ∀ pos, (match getCell b1 pos with
      | some target => target.team != p2.team
      | none => true) = (match getCell b2 pos with
      | some target => target.team != p2.team
      | none => true) :=
    fun pos => viewCell_step b1 b2 pos p2.team (hview pos)
  simp only [hstep]

/-- Raw move sets agree on view-equal boards for view-equal movers. -/
theorem getRawValidMoves_congr (p1 p2 : Piece) (b1 b2 : Board)
    (htype : p1.type = p2.type) (hteam : p1.team = p2.team)
    (hpos : p1.position = p2.position)
    (hview : ∀ pos, viewCell b1 pos = viewCell b2 pos) :
    getRawValidMoves p1 b1 = getRawValidMoves p2 b2 := by
  unfold getRawValidMoves
  rw [htype]
  congr 1
  cases p2.type <;>
    simp only [getBishopMoves, getRookMoves, getQueenMoves, getDiagonalMoves,
      getStraightMoves]
  · exact getPawnMoves_congr p1 p2 b1 b2 hteam hpos hview
  · exact getKnightMoves_congr p1 p2 b1 b2 hteam hpos hview
  · rw [rayLoop_congr p1 p2 b1 b2 1 1 hteam hpos hview,
      rayLoop_congr p1 p2 b1 b2 1 (-1) hteam hpos hview,
      rayLoop_congr p1 p2 b1 b2 (-1) 1 hteam hpos hview,
      rayLoop_congr p1 p2 b1 b2 (-1) (-1) hteam hpos hview]
  · rw [rayLoop_congr p1 p2 b1 b2 0 1 hteam hpos hview,
      rayLoop_congr p1 p2 b1 b2 0 (-1) hteam hpos hview,
      rayLoop_congr p1 p2 b1 b2 1 0 hteam hpos hview,
      rayLoop_congr p1 p2 b1 b2 (-1) 0 hteam hpos hview]
  · rw [rayLoop_congr p1 p2 b1 b2 0 1 hteam hpos hview,
      rayLoop_congr p1 p2 b1 b2 0 (-1) hteam hpos hview,
      rayLoop_congr p1 p2 b1 b2 1 0 hteam hpos hview,
      rayLoop_congr p1 p2 b1 b2 (-1) 0 hteam hpos hview,
      rayLoop_congr p1 p2 b1 b2 1 1 hteam hpos hview,
      rayLoop_congr p1 p2 b1 b2 1 (-1) hteam hpos hview,
      rayLoop_congr p1 p2 b1 b2 (-1) 1 hteam hpos hview,
      rayLoop_congr p1 p2 b1 b2 (-1) (-1) hteam hpos hview]
  · exact getBasicKingMoves_congr p1 p2 b1 b2 hteam hpos hview

/-- `findKing` consults only the king selector of each cell: equal
selectors give equal scan results. -/
theorem findKing_ext (t : Team) (b1 b2 : Board)
    (h : ∀ pos : Position,
      (match getCell b1 pos with
        | some p => if p.type = PieceType.king ∧ p.team = t then some pos else none
        | none => none) =
      (match getCell b2 pos with
        | some p => if p.type = PieceType.king ∧ p.team = t then some pos else none
        | none => none)) :
    findKing t b1 = findKing t b2 := by
  unfold findKing
  apply findSome?_ext
  intro y
  apply findSome?_ext
  intro x
  exact h ⟨(x : Int), (y : Int)⟩

/-- The square `findKing` returns holds a king of the team. -/
theorem findKing_mem (t : Team) (b : Board) (kp : Position)
    (h : findKing t b = some kp) :
    ∃ k, getCell b kp = some k ∧ k.type = PieceType.king ∧ k.team = t := by
  unfold findKing at h
  obtain ⟨y, hy, hsel⟩ := List.exists_of_findSome?_eq_some h
  obtain ⟨x, hx, hsel2⟩ := List.exists_of_findSome?_eq_some hsel
  cases hcell : getCell b ⟨(x : Int), (y : Int)⟩ with
  | none =>
    rw [hcell] at hsel2
    exact absurd hsel2 (by simp)
  | some p =>
    rw [hcell] at hsel2
    dsimp only at hsel2
    split_ifs at hsel2 with hcond
    injection hsel2 with he
    subst he
    exact ⟨p, hcell, hcond.1, hcond.2⟩

/-- The king selector of a cell agrees on view-equal cells. -/
theorem kingSel_viewCell (t : Team) (b1 b2 : Board) (pos : Position)
    (h : viewCell b1 pos = viewCell b2 pos) :
    (match getCell b1 pos with
      | some p => if p.type = PieceType.king ∧ p.team = t then some pos else none
      | none => none) =
    (match getCell b2 pos with
      | some p => if p.type = PieceType.king ∧ p.team = t then some pos else none
      | none => none) := by
  rcases viewCell_cases b1 b2 pos h with ⟨hn1, hn2⟩ | ⟨q1, q2, hs1, hs2, hty, htm, -, -⟩
  · rw [hn1, hn2]
  · rw [hs1, hs2]
    dsimp only
    rw [hty, htm]

/-- `findKing` agrees on view-equal boards. -/
theorem findKing_view_congr (t : Team) (b1 b2 : Board)
    (hview : ∀ pos, viewCell b1 pos = viewCell b2 pos) :
    findKing t b1 = findKing t b2 :=
  findKing_ext t b1 b2 fun pos => kingSel_viewCell t b1 b2 pos (hview pos)

/-- Check detection agrees on view-equal boards: it consults only the
type, team, position and life flag of each occupant. -/
theorem isKingInCheck_view_congr (t : Team) (b1 b2 : Board)
    (hview : ∀ pos, viewCell b1 pos = viewCell b2 pos) :
    isKingInCheck t b1 = isKingInCheck t b2 := by
  unfold isKingInCheck
  rw [findKing_view_congr t b1 b2 hview]
  cases findKing t b2 with
  | none => rfl
  | some kp =>
    dsimp only
    apply any_ext
    intro y
    apply any_ext
    intro x
    rcases viewCell_cases b1 b2 ⟨(x : Int), (y : Int)⟩ (hview _) with
      ⟨hn1, hn2⟩ | ⟨q1, q2, hs1, hs2, hty, htm, hps, hal⟩
    · rw [hn1, hn2]
    · rw [hs1, hs2]
      dsimp only
      rw [htm, hal, getRawValidMoves_congr q1 q2 b1 b2 hty htm hps hview]

/-- Every square a ray produces lies on the ray: it is the square at
some index at or beyond the starting index. -/
theorem rayLoop_mem_form (p : Piece) (b : Board) (dx dy : Int) :
    ∀ (fuel : Nat) (i : Int) (m : Position), m ∈ rayLoop p b dx dy fuel i →
      ∃ k : Nat, m = raySq p.position dx dy (i + k) := by
  intro fuel
  induction fuel with
  | zero =>
    intro i m h
    exact absurd h (List.not_mem_nil m)
  | succ fuel ih =>
    intro i m h
    rw [rayLoop] at h
    split_ifs at h with hv
    · cases hcell : getCell b ⟨p.position.x + dx * i, p.position.y + dy * i⟩ with
      | none =>
        rw [hcell] at h
        dsimp only at h
        rcases List.mem_cons.mp h with heq | hm
        · exact ⟨0, by rw [heq]; unfold raySq; push_cast; ring_nf⟩
        · obtain ⟨k, hk⟩ := ih (i + 1) m hm
          refine ⟨k + 1, ?_⟩
          rw [hk]
          unfold raySq
          congr 1 <;> push_cast <;> ring
      | some target =>
        rw [hcell] at h
        dsimp only at h
        split_ifs at h with ht
        · rw [List.mem_singleton] at h
          exact ⟨0, by rw [h]; unfold raySq; push_cast; ring_nf⟩
        · exact absurd h (List.not_mem_nil m)
    · exact absurd h (List.not_mem_nil m)

/-- Attack transfer along one ray.  `bA` and `bB` agree in view outside
the cells `c1` and `c2`; `c1` is occupied in `bA`, and no ray square
strictly before another can make `c2` precede `kp`.  A ray of `bA`
reaching `kp` then also reaches it in `bB`: the squares before `kp` are
empty in `bA`, hence distinct from `c1`, distinct from `c2` by the
geometric hypothesis, and so empty in `bB` as well. -/
theorem rayLoop_transfer (qA qB : Piece) (bA bB : Board) (dx dy : Int)
    (kp c1 c2 : Position)
    (hteam : qA.team = qB.team) (hpos : qA.position = qB.position)
    (hexc : ∀ r, r ≠ c1 → r ≠ c2 → viewCell bA r = viewCell bB r)
    (hc1A : getCell bA c1 ≠ none)
    (hkpc1 : kp ≠ c1) (hkpc2 : kp ≠ c2)
    (hkp : viewCell bA kp = viewCell bB kp)
    (hgeo : ∀ a b : Int, 1 ≤ a → a < b → raySq qA.position dx dy a = c2 →
      raySq qA.position dx dy b = kp → False) :
    ∀ (fuel : Nat) (i : Int), 1 ≤ i → kp ∈ rayLoop qA bA dx dy fuel i →
      kp ∈ rayLoop qB bB dx dy fuel i := by
  intro fuel
  induction fuel with
  | zero =>
    intro i _ h
    exact absurd h (List.not_mem_nil kp)
  | succ fuel ih =>
    intro i hi h
    rw [rayLoop] at h ⊢
    rw [← hpos, ← hteam]
    split_ifs at h with hv
    · rw [if_pos hv]
      cases hcell : getCell bA ⟨qA.position.x + dx * i, qA.position.y + dy * i⟩ with
      | none =>
        rw [hcell] at h
        dsimp only at h
        by_cases hp2 : (⟨qA.position.x + dx * i, qA.position.y + dy * i⟩ : Position) = c2
        · rcases List.mem_cons.mp h with heq | hm
          · exact absurd (heq.trans hp2) hkpc2
          · obtain ⟨k, hk⟩ := rayLoop_mem_form qA bA dx dy fuel (i + 1) kp hm
            exact absurd hk.symm fun hcontra =>
              hgeo i ((i + 1) + (k : Int)) hi (by omega)
                (by unfold raySq; exact hp2) hcontra
        · have hp1 : (⟨qA.position.x + dx * i, qA.position.y + dy * i⟩ : Position) ≠ c1 := by
            intro he
            rw [he] at hcell
            exact hc1A hcell
          have hvw := hexc _ hp1 hp2
          have hbB : getCell bB ⟨qA.position.x + dx * i, qA.position.y + dy * i⟩ = none := by
            unfold viewCell at hvw
            rw [hcell] at hvw
            exact Option.map_eq_none'.mp hvw.symm
          rw [hbB]
          dsimp only
          rcases List.mem_cons.mp h with heq | hm
          · rw [heq]
            exact List.mem_cons_self _ _
          · exact List.mem_cons_of_mem _ (ih (i + 1) (by omega) hm)
      | some target =>
        rw [hcell] at h
        dsimp only at h
        split_ifs at h with ht
        · rw [List.mem_singleton] at h
          subst h
          unfold viewCell at hkp
          rw [hcell] at hkp
          cases hcellB : getCell bB ⟨qA.position.x + dx * i, qA.position.y + dy * i⟩ with
          | none =>
            rw [hcellB] at hkp
            exact absurd hkp (by simp)
          | some targetB =>
            rw [hcellB] at hkp
            simp only [Option.map_some', Option.some.injEq, PieceView.mk.injEq] at hkp
            dsimp only
            rw [if_pos (by rw [← hkp.2.1]; exact ht)]
            exact List.mem_singleton.mpr rfl
        · exact absurd h (List.not_mem_nil kp)
    · exact absurd h (List.not_mem_nil kp)

/-- A pawn move reaching an occupied square is one of its capture
squares, and capturing transfers to a view-equal placement. -/
theorem getPawnMoves_transfer (qA qB : Piece) (bA bB : Board) (kp : Position)
    (hteam : qA.team = qB.team) (hpos : qA.position = qB.position)
    (hkpA : getCell bA kp ≠ none)
    (hkp : viewCell bA kp = viewCell bB kp)
    (hmem : kp ∈ getPawnMoves qA bA) :
    kp ∈ getPawnMoves qB bB := by
  unfold getPawnMoves at hmem ⊢
  rw [← hpos, ← hteam]
  dsimp only at hmem ⊢
  set dir : Int := if qA.team = Team.white then -1 else 1 with hdir
  set srow : Int := if qA.team = Team.white then (6 : Int) else 1 with hsrow
  rw [List.mem_append] at hmem ⊢
  rcases hmem with hfwd | hcap
  · exfalso
    apply hkpA
    split_ifs at hfwd with hA hB hC
    · rw [Bool.and_eq_true] at hA hC
      rw [List.mem_append, List.mem_singleton, List.mem_singleton] at hfwd
      rcases hfwd with rfl | rfl
      · exact Option.isNone_iff_eq_none.mp hA.2
      · exact Option.isNone_iff_eq_none.mp hC.2
    · rw [Bool.and_eq_true] at hA
      rw [List.append_nil, List.mem_singleton] at hfwd
      subst hfwd
      exact Option.isNone_iff_eq_none.mp hA.2
    · rw [Bool.and_eq_true] at hA
      rw [List.append_nil, List.mem_singleton] at hfwd
      subst hfwd
      exact Option.isNone_iff_eq_none.mp hA.2
    · exact absurd hfwd (List.not_mem_nil kp)
  · refine Or.inr ?_
    rw [List.mem_filter] at hcap ⊢
    refine ⟨hcap.1, ?_⟩
    have hpred := hcap.2
    rw [Bool.and_eq_true] at hpred ⊢
    refine ⟨hpred.1, ?_⟩
    rw [← viewCell_capture bA bB kp qA.team hkp]
    exact hpred.2

/-- A knight move transfers to a view-equal placement when the views
agree at the destination. -/
theorem getKnightMoves_transfer (qA qB : Piece) (bA bB : Board) (kp : Position)
    (hteam : qA.team = qB.team) (hpos : qA.position = qB.position)
    (hkp : viewCell bA kp = viewCell bB kp)
    (hmem : kp ∈ getKnightMoves qA bA) :
    kp ∈ getKnightMoves qB bB := by
  unfold getKnightMoves at hmem ⊢
  rw [← hpos, ← hteam]
  rw [List.mem_filter] at hmem ⊢
  refine ⟨hmem.1, ?_⟩
  have hpred := hmem.2
  rw [Bool.and_eq_true] at hpred ⊢
  refine ⟨hpred.1, ?_⟩
  rw [← viewCell_step bA bB kp qA.team hkp]
  exact hpred.2

/-- A basic king step transfers to a view-equal placement when the
views agree at the destination. -/
theorem getBasicKingMoves_transfer (qA qB : Piece) (bA bB : Board) (kp : Position)
    (hteam : qA.team = qB.team) (hpos : qA.position = qB.position)
    (hkp : viewCell bA kp = viewCell bB kp)
    (hmem : kp ∈ getBasicKingMoves qA bA) :
    kp ∈ getBasicKingMoves qB bB := by
  unfold getBasicKingMoves at hmem ⊢
  rw [← hpos, ← hteam]
  rw [List.mem_filter] at hmem ⊢
  refine ⟨hmem.1, ?_⟩
  have hpred := hmem.2
  rw [Bool.and_eq_true] at hpred ⊢
  refine ⟨hpred.1, ?_⟩
  rw [← viewCell_step bA bB kp qA.team hkp]
  exact hpred.2

/-- Raw attack transfer: a raw move of `qA` on `bA` reaching the
occupied square `kp` is also a raw move of the view-equal `qB` on
`bB`, under the two-cell view agreement and ray geometry used for the
castling analysis. -/
theorem getRawValidMoves_transfer (qA qB : Piece) (bA bB : Board) (kp c1 c2 : Position)
    (htype : qA.type = qB.type) (hteam : qA.team = qB.team)
    (hpos : qA.position = qB.position)
    (hexc : ∀ r, r ≠ c1 → r ≠ c2 → viewCell bA r = viewCell bB r)
    (hc1A : getCell bA c1 ≠ none)
    (hkpc1 : kp ≠ c1) (hkpc2 : kp ≠ c2)
    (hkp : viewCell bA kp = viewCell bB kp)
    (hkpA : getCell bA kp ≠ none)
    (hgeo : ∀ d ∈ rayDirs, ∀ a b : Int, 1 ≤ a → a < b →
      raySq qA.position d.1 d.2 a = c2 → raySq qA.position d.1 d.2 b = kp → False)
    (hmem : kp ∈ getRawValidMoves qA bA) :
    kp ∈ getRawValidMoves qB bB := by
  have T : ∀ dx dy : Int, (dx, dy) ∈ rayDirs → kp ∈ rayLoop qA bA dx dy 7 1 →
      kp ∈ rayLoop qB bB dx dy 7 1 := fun dx dy hd hm =>
    rayLoop_transfer qA qB bA bB dx dy kp c1 c2 hteam hpos hexc hc1A hkpc1 hkpc2 hkp
      (hgeo (dx, dy) hd) 7 1 (by norm_num) hm
  unfold getRawValidMoves at hmem ⊢
  rw [List.mem_filter] at hmem ⊢
  refine ⟨?_, hmem.2⟩
  have hm := hmem.1
  rw [← htype]
  cases hqt : qA.type
  case pawn =>
    rw [hqt] at hm
    dsimp only at hm ⊢
    exact getPawnMoves_transfer qA qB bA bB kp hteam hpos hkpA hkp hm
  case knight =>
    rw [hqt] at hm
    dsimp only at hm ⊢
    exact getKnightMoves_transfer qA qB bA bB kp hteam hpos hkp hm
  case bishop =>
    rw [hqt] at hm
    dsimp only at hm ⊢
    unfold getBishopMoves getDiagonalMoves at hm ⊢
    simp only [List.mem_append] at hm ⊢
    rcases hm with ((hm | hm) | hm) | hm
    · exact Or.inl (Or.inl (Or.inl (T 1 1 (by decide) hm)))
    · exact Or.inl (Or.inl (Or.inr (T 1 (-1) (by decide) hm)))
    · exact Or.inl (Or.inr (T (-1) 1 (by decide) hm))
    · exact Or.inr (T (-1) (-1) (by decide) hm)
  case rook =>
    rw [hqt] at hm
    dsimp only at hm ⊢
    unfold getRookMoves getStraightMoves at hm ⊢
    simp only [List.mem_append] at hm ⊢
    rcases hm with ((hm | hm) | hm) | hm
    · exact Or.inl (Or.inl (Or.inl (T 0 1 (by decide) hm)))
    · exact Or.inl (Or.inl (Or.inr (T 0 (-1) (by decide) hm)))
    · exact Or.inl (Or.inr (T 1 0 (by decide) hm))
    · exact Or.inr (T (-1) 0 (by decide) hm)
  case queen =>
    rw [hqt] at hm
    dsimp only at hm ⊢
    unfold getQueenMoves getStraightMoves getDiagonalMoves at hm ⊢
    simp only [List.mem_append] at hm ⊢
    rcases hm with (((hm | hm) | hm) | hm) | (((hm | hm) | hm) | hm)
    · exact Or.inl (Or.inl (Or.inl (Or.inl (T 0 1 (by decide) hm))))
    · exact Or.inl (Or.inl (Or.inl (Or.inr (T 0 (-1) (by decide) hm))))
    · exact Or.inl (Or.inl (Or.inr (T 1 0 (by decide) hm)))
    · exact Or.inl (Or.inr (T (-1) 0 (by decide) hm))
    · exact Or.inr (Or.inl (Or.inl (Or.inl (T 1 1 (by decide) hm))))
    · exact Or.inr (Or.inl (Or.inl (Or.inr (T 1 (-1) (by decide) hm))))
    · exact Or.inr (Or.inl (Or.inr (T (-1) 1 (by decide) hm)))
    · exact Or.inr (Or.inr (T (-1) (-1) (by decide) hm))
  case king =>
    rw [hqt] at hm
    dsimp only at hm ⊢
    exact getBasicKingMoves_transfer qA qB bA bB kp hteam hpos hkp hm

/-- Check transfer from an applied castling board `bA` to the
corresponding simulated board `bB`.  The boards agree in view outside
`c1` (the rook's landing square: friendly rook in `bA`, empty in `bB`)
and `c2` (the rook's home square: empty in `bA`, rook in `bB`); the
team has at most one king in `bB`, standing at `kp`, and no ray square
of an on-board attacker can pass `c2` strictly before reaching `kp`.
Safety of the simulated board then forces safety of the applied one. -/
theorem isKingInCheck_transfer (bA bB : Board) (t : Team) (kp c1 c2 : Position)
    (hwfA : posWF bA)
    (hexc : ∀ r, r ≠ c1 → r ≠ c2 → viewCell bA r = viewCell bB r)
    (hc1A : ∃ u, getCell bA c1 = some u ∧ u.team = t ∧ u.type ≠ PieceType.king)
    (hc1B : getCell bB c1 = none)
    (hc2A : getCell bA c2 = none)
    (hc2B : ∀ u, getCell bB c2 = some u → u.type ≠ PieceType.king)
    (hkpc1 : kp ≠ c1) (hkpc2 : kp ≠ c2)
    (huniqB : ∀ pos k, getCell bB pos = some k → k.type = PieceType.king →
      k.team = t → pos = kp)
    (hgeo : ∀ qpos : Position, isValidPosition qpos = true → ∀ d ∈ rayDirs,
      ∀ a b : Int, 1 ≤ a → a < b → raySq qpos d.1 d.2 a = c2 →
        raySq qpos d.1 d.2 b = kp → False)
    (hB : isKingInCheck t bB = false) :
    isKingInCheck t bA = false := by
  have hfk : findKing t bA = findKing t bB := by
    apply findKing_ext
    intro pos
    by_cases h1 : pos = c1
    · subst h1
      obtain ⟨u, hu, hut, huk⟩ := hc1A
      rw [hu, hc1B]
      dsimp only
      rw [if_neg (fun hc => huk hc.1)]
    · by_cases h2 : pos = c2
      · subst h2
        rw [hc2A]
        cases hcB : getCell bB pos with
        | none => rfl
        | some u =>
          dsimp only
          rw [if_neg (fun hcond => hc2B u hcB hcond.1)]
      · exact kingSel_viewCell t bA bB pos (hexc pos h1 h2)
  cases hfkB : findKing t bB with
  | none =>
    unfold isKingInCheck
    rw [hfk, hfkB]
  | some kp1 =>
    obtain ⟨k1, hk1, hk1ty, hk1tm⟩ := findKing_mem t bB kp1 hfkB
    have hkp1 : kp1 = kp := huniqB kp1 k1 hk1 hk1ty hk1tm
    subst hkp1
    have hfkA : findKing t bA = some kp1 := by rw [hfk, hfkB]
    obtain ⟨kA, hkA, hkAty, hkAtm⟩ := findKing_mem t bA kp1 hfkA
    unfold isKingInCheck at hB ⊢
    rw [hfkB] at hB
    rw [hfkA]
    dsimp only at hB ⊢
    by_contra hcon
    rw [Bool.not_eq_false, List.any_eq_true] at hcon
    obtain ⟨y, hy, hcon⟩ := hcon
    rw [List.any_eq_true] at hcon
    obtain ⟨x, hx, hcon⟩ := hcon
    cases hcell : getCell bA ⟨(x : Int), (y : Int)⟩ with
    | none =>
      rw [hcell] at hcon
      exact absurd hcon (by simp)
    | some q =>
      rw [hcell] at hcon
      dsimp only at hcon
      rw [Bool.and_eq_true, Bool.and_eq_true] at hcon
      obtain ⟨⟨henemy, halive⟩, hany⟩ := hcon
      rw [List.any_eq_true] at hany
      obtain ⟨m, hm, hpe⟩ := hany
      rw [positionsEqual_iff] at hpe
      subst hpe
      have hne1 : (⟨(x : Int), (y : Int)⟩ : Position) ≠ c1 := by
        intro he
        obtain ⟨u, hu, hut, -⟩ := hc1A
        rw [he, hu] at hcell
        injection hcell with hq
        subst hq
        rw [hut] at henemy
        simp at henemy
      have hne2 : (⟨(x : Int), (y : Int)⟩ : Position) ≠ c2 := by
        intro he
        rw [he, hc2A] at hcell
        cases hcell
      have hview := hexc _ hne1 hne2
      rcases viewCell_cases bA bB _ hview with ⟨hn1, -⟩ | ⟨q1, q2, hs1, hs2, hty, htm, hps, hal⟩
      · rw [hn1] at hcell
        cases hcell
      · rw [hcell] at hs1
        injection hs1 with hq1
        subst hq1
        have hqpos : q.position = ⟨(x : Int), (y : Int)⟩ := hwfA _ _ hcell
        have hqvalid : isValidPosition q.position = true := by
          rw [hqpos]
          unfold isValidPosition
          rw [List.mem_range] at hx hy
          simp only [Bool.and_eq_true, decide_eq_true_eq]
          omega
        have hkpview : viewCell bA m = viewCell bB m := hexc m hkpc1 hkpc2
        have hkpocc : getCell bA m ≠ none := by
          rw [hkA]
          simp
        have hc1occ : getCell bA c1 ≠ none := by
          obtain ⟨u, hu, -, -⟩ := hc1A
          rw [hu]
          simp
        have htrans := getRawValidMoves_transfer q q2 bA bB m c1 c2 hty htm hps
          hexc hc1occ hkpc1 hkpc2 hkpview hkpocc (hgeo q.position hqvalid) hm
        rw [← Bool.not_eq_true] at hB
        apply hB
        simp only [List.any_eq_true]
        refine ⟨y, hy, x, hx, ?_⟩
        rw [hs2]
        dsimp only
        rw [Bool.and_eq_true, Bool.and_eq_true]
        refine ⟨⟨?_, ?_⟩, ?_⟩
        · rw [← htm]
          exact henemy
        · rw [← hal]
          exact halive
        · rw [List.any_eq_true]
          exact ⟨m, htrans, (positionsEqual_iff m m).mpr rfl⟩

/-- Reading an updated board at a different square. -/
theorem getCell_setCell_ne (b : Board) (pos q : Position) (v : Option Piece)
    (h : q ≠ pos) : getCell (setCell b pos v) q = getCell b q := by
  unfold getCell setCell
  rw [if_neg h]

/-- Reading an updated board at the written square. -/
theorem getCell_setCell_self (b : Board) (pos : Position) (v : Option Piece)
    (h : isValidPosition pos = true) : getCell (setCell b pos v) pos = v := by
  unfold getCell setCell
  rw [if_pos rfl, if_pos h]

/-- Board validity of a coordinate pair, as bounds. -/
theorem isValidPosition_mk (x y : Int) :
    isValidPosition ⟨x, y⟩ = true ↔ (0 ≤ x ∧ x < 8 ∧ 0 ≤ y ∧ y < 8) := by
  unfold isValidPosition
  simp [Bool.and_eq_true, decide_eq_true_eq, and_assoc]

/-- The kingside rook relocation performed by `executeCastling`. -/
theorem executeCastling_kingside (king rook : Piece) (board : Board) (py : Int)
    (hpp : king.position = ⟨4, py⟩)
    (hr : getCell board ⟨7, py⟩ = some rook) :
    executeCastling king ⟨6, py⟩ board =
      setCell (setCell board ⟨5, py⟩
        (some { rook with position := ⟨5, py⟩, hasMoved := true })) ⟨7, py⟩ none := by
  unfold executeCastling
  rw [hpp]
  dsimp only
  split_ifs with h
  · rw [hr]
  · exact absurd (by norm_num) h

/-- The queenside rook relocation performed by `executeCastling`. -/
theorem executeCastling_queenside (king rook : Piece) (board : Board) (py : Int)
    (hpp : king.position = ⟨4, py⟩)
    (hr : getCell board ⟨0, py⟩ = some rook) :
    executeCastling king ⟨2, py⟩ board =
      setCell (setCell board ⟨3, py⟩
        (some { rook with position := ⟨3, py⟩, hasMoved := true })) ⟨0, py⟩ none := by
  unfold executeCastling
  rw [hpp]
  dsimp only
  split_ifs with h
  · exact absurd h (by norm_num)
  · rw [hr]

/-- C4 (amended): with every occupant recording the square it stands on
and at most one king of the moving team on the board (any two cells
holding a king of that team coincide), a move offered by
`getValidMoves` never leaves the mover's own team in check after the
store's `movePiece` applies it - castling included, although the
applied board differs from the board the legality test simulated.
Without the single-king restriction the claim fails
(`c4_counterexample`). -/
theorem c4_amended (board : Board) (piece : Piece) (toPos : Position)
    (honb : getCell board piece.position = some piece)
    (hwf : posWF board)
    (huniq : ∀ p1 p2 k1 k2, getCell board p1 = some k1 → getCell board p2 = some k2 →
      k1.type = PieceType.king → k2.type = PieceType.king →
      k1.team = piece.team → k2.team = piece.team → p1 = p2)
    (hmem : toPos ∈ getValidMoves piece board) :
    isKingInCheck piece.team (movePiece board piece.position toPos).board = false := by
  have hvalidmv := isMoveValid_of_mem piece toPos board hmem
  obtain ⟨hmty, hvto, hwould⟩ := (mem_getValidMoves_iff piece board toPos).mp hmem
  have hvp : isValidPosition piece.position = true := by
    by_cases hsv : isValidPosition piece.position = true
    · exact hsv
    · exfalso
      have h := honb
      unfold getCell at h
      rw [if_neg hsv] at h
      cases h
  obtain ⟨hb1, hb2, hb3, hb4⟩ :
      0 ≤ piece.position.x ∧ piece.position.x < 8 ∧
        0 ≤ piece.position.y ∧ piece.position.y < 8 :=
    (isValidPosition_mk piece.position.x piece.position.y).mp hvp
  unfold movePiece
  rw [honb]
  dsimp only
  rw [if_pos hvalidmv]
  dsimp only
  by_cases hcast : isCastlingMove piece toPos = true
  · rw [if_pos hcast]
    have hc := hcast
    unfold isCastlingMove at hc
    simp only [Bool.and_eq_true, beq_iff_eq] at hc
    obtain ⟨htypek, hdx⟩ := hc
    have huniqP : ∀ pos k, getCell board pos = some k → k.type = PieceType.king →
        k.team = piece.team → pos = piece.position :=
      fun pos k hck hkt hktm => huniq pos piece.position k piece hck honb hkt htypek hktm rfl
    have hmty2 : toPos ∈ getKingMoves piece board := by
      unfold movesByType at hmty
      rw [htypek] at hmty
      exact hmty
    unfold getKingMoves at hmty2
    rw [List.mem_append, mem_castle_ite_iff] at hmty2
    rcases hmty2 with hbasic | ⟨hmv, hchk, hcm⟩
    · exfalso
      have := mem_getBasicKingMoves_dx piece board toPos hbasic
      omega
    · unfold getCastlingMoves at hcm
      rw [List.mem_append, mem_kingsideCastleMoves_iff,
        mem_queensideCastleMoves_iff] at hcm
      rcases hcm with ⟨htp, ⟨rook, hr, hrty, hrtm, hrmv⟩, h5, h6, hw5, hw6⟩ |
        ⟨htp, ⟨rook, hr, hrty, hrtm, hrmv⟩, h1, h2, h3, hw3, hw2⟩
      · subst htp
        set py := piece.position.y with hpy
        have hpx : piece.position.x = 4 := by
          have hdx2 : ((6 : Int) - piece.position.x).natAbs = 2 := hdx
          omega
        have hpp : piece.position = ⟨4, py⟩ := by
          rw [hpy, ← hpx]
        have hv5 : isValidPosition (⟨5, py⟩ : Position) = true :=
          (isValidPosition_mk 5 py).mpr ⟨by norm_num, by norm_num, hb3, hb4⟩
        have hv7 : isValidPosition (⟨7, py⟩ : Position) = true :=
          (isValidPosition_mk 7 py).mpr ⟨by norm_num, by norm_num, hb3, hb4⟩
        rw [executeCastling_kingside piece rook board py hpp hr, hpp]
        have hsim := hw6
        unfold wouldMoveResultInCheck at hsim
        dsimp only at hsim
        rw [hpp] at hsim
        refine isKingInCheck_transfer _
          (setCell (setCell board ⟨6, py⟩ (some { piece with position := ⟨6, py⟩ }))
            ⟨4, py⟩ none)
          piece.team ⟨6, py⟩ ⟨5, py⟩ ⟨7, py⟩ ?_ ?_ ?_ ?_ ?_ ?_ ?_ ?_ ?_ ?_ hsim
        · exact posWF_setCell _ _ _
            (posWF_setCell _ _ _
              (posWF_setCell _ _ _
                (posWF_setCell _ _ _ hwf
                  (fun p hp => by injection hp with hp; rw [← hp]))
                (fun p hp => by cases hp))
              (fun p hp => by injection hp with hp; rw [← hp]))
            (fun p hp => by cases hp)
        · intro r hr5 hr7
          unfold viewCell getCell setCell
          split_ifs <;> rfl
        · refine ⟨{ rook with position := ⟨5, py⟩, hasMoved := true }, ?_, ?_, ?_⟩
          · rw [getCell_setCell_ne _ _ _ _ (by norm_num [Position.mk.injEq]),
              getCell_setCell_ne _ _ _ _ (by norm_num [Position.mk.injEq]),
              getCell_setCell_ne _ _ _ _ (by norm_num [Position.mk.injEq]),
              getCell_setCell_self _ _ _ hv5]
          · exact hrtm
          · show rook.type ≠ PieceType.king
            rw [hrty]
            decide
        · rw [getCell_setCell_ne _ _ _ _ (by norm_num [Position.mk.injEq]),
            getCell_setCell_ne _ _ _ _ (by norm_num [Position.mk.injEq])]
          exact h5
        · rw [getCell_setCell_ne _ _ _ _ (by norm_num [Position.mk.injEq]),
            getCell_setCell_ne _ _ _ _ (by norm_num [Position.mk.injEq]),
            getCell_setCell_self _ _ _ hv7]
        · intro u hu
          rw [getCell_setCell_ne _ _ _ _ (by norm_num [Position.mk.injEq]),
            getCell_setCell_ne _ _ _ _ (by norm_num [Position.mk.injEq]),
            hr] at hu
          injection hu with hu
          rw [← hu, hrty]
          decide
        · norm_num [Position.mk.injEq]
        · norm_num [Position.mk.injEq]
        · intro pos k hcell hkty hktm
          unfold getCell setCell at hcell
          split_ifs at hcell with hvv h4 h6
          · exact h6
          · have hgb : getCell board pos = some k := by
              unfold getCell
              rw [if_pos hvv]
              exact hcell
            have := huniqP pos k hgb hkty hktm
            rw [hpp] at this
            exact absurd this h4
        · intro qpos hqv d hd a b ha hab hray1 hray2
          obtain ⟨hq1, hq2, hq3, hq4⟩ := (isValidPosition_mk qpos.x qpos.y).mp hqv
          fin_cases hd <;>
            (dsimp only [raySq] at hray1 hray2
             rw [Position.mk.injEq] at hray1 hray2
             omega)
      · subst htp
        set py := piece.position.y with hpy
        have hpx : piece.position.x = 4 := by
          have hdx2 : ((2 : Int) - piece.position.x).natAbs = 2 := hdx
          rcases (by omega : piece.position.x = 0 ∨ piece.position.x = 4) with h0 | h4
          · exfalso
            have hpp0 : piece.position = ⟨0, py⟩ := by
              rw [hpy, ← h0]
            rw [hpp0] at honb
            rw [honb] at hr
            injection hr with hr
            rw [← hr] at hrty
            rw [htypek] at hrty
            cases hrty
          · exact h4
        have hpp : piece.position = ⟨4, py⟩ := by
          rw [hpy, ← hpx]
        have hv3 : isValidPosition (⟨3, py⟩ : Position) = true :=
          (isValidPosition_mk 3 py).mpr ⟨by norm_num, by norm_num, hb3, hb4⟩
        have hv0 : isValidPosition (⟨0, py⟩ : Position) = true :=
          (isValidPosition_mk 0 py).mpr ⟨by norm_num, by norm_num, hb3, hb4⟩
        rw [executeCastling_queenside piece rook board py hpp hr, hpp]
        have hsim := hw2
        unfold wouldMoveResultInCheck at hsim
        dsimp only at hsim
        rw [hpp] at hsim
        refine isKingInCheck_transfer _
          (setCell (setCell board ⟨2, py⟩ (some { piece with position := ⟨2, py⟩ }))
            ⟨4, py⟩ none)
          piece.team ⟨2, py⟩ ⟨3, py⟩ ⟨0, py⟩ ?_ ?_ ?_ ?_ ?_ ?_ ?_ ?_ ?_ ?_ hsim
        · exact posWF_setCell _ _ _
            (posWF_setCell _ _ _
              (posWF_setCell _ _ _
                (posWF_setCell _ _ _ hwf
                  (fun p hp => by injection hp with hp; rw [← hp]))
                (fun p hp => by cases hp))
              (fun p hp => by injection hp with hp; rw [← hp]))
            (fun p hp => by cases hp)
        · intro r hr3 hr0
          unfold viewCell getCell setCell
          split_ifs <;> rfl
        · refine ⟨{ rook with position := ⟨3, py⟩, hasMoved := true }, ?_, ?_, ?_⟩
          · rw [getCell_setCell_ne _ _ _ _ (by norm_num [Position.mk.injEq]),
              getCell_setCell_ne _ _ _ _ (by norm_num [Position.mk.injEq]),
              getCell_setCell_ne _ _ _ _ (by norm_num [Position.mk.injEq]),
              getCell_setCell_self _ _ _ hv3]
          · exact hrtm
          · show rook.type ≠ PieceType.king
            rw [hrty]
            decide
        · rw [getCell_setCell_ne _ _ _ _ (by norm_num [Position.mk.injEq]),
            getCell_setCell_ne _ _ _ _ (by norm_num [Position.mk.injEq])]
          exact h3
        · rw [getCell_setCell_ne _ _ _ _ (by norm_num [Position.mk.injEq]),
            getCell_setCell_ne _ _ _ _ (by norm_num [Position.mk.injEq]),
            getCell_setCell_self _ _ _ hv0]
        · intro u hu
          rw [getCell_setCell_ne _ _ _ _ (by norm_num [Position.mk.injEq]),
            getCell_setCell_ne _ _ _ _ (by norm_num [Position.mk.injEq]),
            hr] at hu
          injection hu with hu
          rw [← hu, hrty]
          decide
        · norm_num [Position.mk.injEq]
        · norm_num [Position.mk.injEq]
        · intro pos k hcell hkty hktm
          unfold getCell setCell at hcell
          split_ifs at hcell with hvv h4 h2c
          · exact h2c
          · have hgb : getCell board pos = some k := by
              unfold getCell
              rw [if_pos hvv]
              exact hcell
            have := huniqP pos k hgb hkty hktm
            rw [hpp] at this
            exact absurd this h4
        · intro qpos hqv d hd a b ha hab hray1 hray2
          obtain ⟨hq1, hq2, hq3, hq4⟩ := (isValidPosition_mk qpos.x qpos.y).mp hqv
          fin_cases hd <;>
            (dsimp only [raySq] at hray1 hray2
             rw [Position.mk.injEq] at hray1 hray2
             omega)
  · rw [if_neg hcast]
    have hcg := isKingInCheck_view_congr piece.team
      (setCell (setCell board toPos (some { piece with position := toPos, hasMoved := true }))
        piece.position none)
      (setCell (setCell board toPos (some { piece with position := toPos }))
        piece.position none)
      (by
        intro r
        unfold viewCell getCell setCell
        split_ifs <;> rfl)
    rw [hcg]
    have hsim := hwould
    unfold wouldMoveResultInCheck at hsim
    dsimp only at hsim
    exact hsim

/-- Witness for C4 at concrete inputs: on the single-king castling
board the kingside castling destination is offered and applying it
through `movePiece` leaves white out of check, and the same theorem
also applies to a pawn move of the single-king side. -/
theorem c4_witness :
    ((⟨6, 7⟩ : Position) ∈ getValidMoves wKingOk castleOkBoard ∧
      isKingInCheck Team.white (movePiece castleOkBoard ⟨4, 7⟩ ⟨6, 7⟩).board = false) ∧
    ((⟨0, 5⟩ : Position) ∈ getValidMoves wPawnOk pawnMoveBoard ∧
      isKingInCheck Team.white (movePiece pawnMoveBoard ⟨0, 6⟩ ⟨0, 5⟩).board = false) := by
  have hmem : (⟨6, 7⟩ : Position) ∈ getValidMoves wKingOk castleOkBoard := by decide
  have hmemP : (⟨0, 5⟩ : Position) ∈ getValidMoves wPawnOk pawnMoveBoard := by decide
  refine ⟨⟨hmem, ?_⟩, hmemP, ?_⟩
  case refine_2 =>
    exact c4_amended pawnMoveBoard wPawnOk ⟨0, 5⟩ (by decide)
      (by
        intro pos p hp
        unfold pawnMoveBoard castleOkBoard getCell setCell emptyBoard at hp
        split_ifs at hp with hv h0 h7 h4
        · injection hp with hp
          rw [← hp, h0]
          rfl
        · injection hp with hp
          rw [← hp, h7]
          rfl
        · injection hp with hp
          rw [← hp, h4]
          rfl)
      (by
        intro p1 p2 k1 k2 hc1 hc2 hk1 hk2 ht1 ht2
        have hpin : ∀ p k, getCell pawnMoveBoard p = some k → k.type = PieceType.king →
            p = (⟨4, 7⟩ : Position) := by
          intro p k hp hk
          unfold pawnMoveBoard castleOkBoard getCell setCell emptyBoard at hp
          split_ifs at hp with hv h0 h7 h4
          · exfalso
            injection hp with hp
            rw [← hp] at hk
            exact absurd hk (by decide)
          · exfalso
            injection hp with hp
            rw [← hp] at hk
            exact absurd hk (by decide)
          · exact h4
        rw [hpin p1 k1 hc1 hk1, hpin p2 k2 hc2 hk2])
      hmemP
  exact c4_amended castleOkBoard wKingOk ⟨6, 7⟩ (by decide)
    (by
      intro pos p hp
      unfold castleOkBoard getCell setCell emptyBoard at hp
      split_ifs at hp with hv h7 h4
      · injection hp with hp
        rw [← hp, h7]
        rfl
      · injection hp with hp
        rw [← hp, h4]
        rfl)
    (by
      intro p1 p2 k1 k2 hc1 hc2 hk1 hk2 ht1 ht2
      have hpin : ∀ p k, getCell castleOkBoard p = some k → k.type = PieceType.king →
          p = (⟨4, 7⟩ : Position) := by
        intro p k hp hk
        unfold castleOkBoard getCell setCell emptyBoard at hp
        split_ifs at hp with hv h7 h4
        · exfalso
          injection hp with hp
          rw [← hp] at hk
          exact absurd hk (by decide)
        · exact h4
      rw [hpin p1 k1 hc1 hk1, hpin p2 k2 hc2 hk2])
    hmem
